import Mathlib

/-!
Shallow embedding of the `crammer` timed drill trainer (C sources under
`src/`), covering the session parser (`src/parser.c`), the RNG and shuffle
engine (`src/rng.c`), the scheduling runner (`src/runner.c`), the file
loader, and the terminal-acquisition wrapper (`src/main.c`).

Modelling conventions:
* C byte buffers become `List Nat` (each entry a byte value `< 256`).
* `size_t` / `u32` / `u64` quantities become `Nat`; the 64-bit wraparound of
  the RNG is made explicit with `% 2^64`.  The `u32` stores performed by the
  parser never truncate because every stored value is bounded by
  `MAX_FILE_BYTES < 2^32` resp. the capacity constants, so they are embedded
  without a mod.
* `validate_ptr` / `assert_ptr` checks are vacuous in the embedding
  (references are values); `validate_ok` / `assert_ok` checks on data are
  embedded faithfully as conditionals.
* Fallible C functions returning `0` / `-1` with an error buffer become
  `Except PErr _`; runner functions that return `int` codes return the code
  (`Int`) paired with the updated state.
* The parser's in-place NUL writes (`line[line_len] = 0`, and the writes
  inside header lines) only touch bytes of the current line terminator or of
  header lines, never bytes inside a committed item's `[offset, offset+length)`
  range, so the embedding keeps the buffer immutable and parses slices
  directly.
* The runner's external effects are deterministic input streams: a monotonic
  clock stream (`clocks`), a key-input stream (`keys`), and an RNG state; log
  calls are modelled as emission of events onto an append-only trace (the
  checks that the C log functions perform before touching the file descriptor
  are kept; the write itself is modelled as succeeding).
-/

namespace Crammer

/-! ## Configuration constants (src/include/config.h) -/

def MAX_GROUPS : Nat := 65536
def MAX_ITEMS_TOTAL : Nat := 1048576
def MAX_ITEMS_PER_GROUP : Nat := 65536
def MAX_LINE_LEN : Nat := 65536
def MAX_FILE_BYTES : Nat := 16 * 1024 * 1024
def MAX_PROMPTS_PER_RUN : Nat := 1048576
def MAX_WAIT_LOOPS : Nat := 1048576
def MAX_GROUP_SECONDS : Nat := 86400
def MAX_GROUP_MILLISECONDS : Nat := MAX_GROUP_SECONDS * 1000
def RNG_RETRY_LIMIT : Nat := 64
def U64 : Nat := 2 ^ 64

/-! ## Data model (src/include/model.h) -/

structure Item where
  offset : Nat
  length : Nat
deriving DecidableEq, Repr

structure Group where
  name_offset : Nat
  name_length : Nat
  seconds : Nat
  item_start : Nat
  item_count : Nat
deriving DecidableEq, Repr

/-- The session: the C struct stores a fixed-capacity buffer plus
`buffer_len`, and fixed-capacity `groups`/`items` arrays plus counts; the
embedding stores only the live prefixes, so `buffer_len = buffer.length`,
`group_count = groups.length`, `item_count = items.length`. -/
structure Session where
  buffer : List Nat
  groups : List Group
  items : List Item
deriving DecidableEq, Repr

/-- Parse errors: `set_error_line` produces a message with a 1-based line
number, `set_error` one without. -/
structure PErr where
  line : Option Nat
  msg : String
deriving DecidableEq, Repr

/-! ## Parser (src/parser.c) -/

/-- C `isspace` on an `unsigned char` in the C locale: space and `\t \n \v \f \r`. -/
def isspaceB (b : Nat) : Bool := b = 32 || (9 ≤ b && b ≤ 13)

/-- C `isdigit`. -/
def isdigitB (b : Nat) : Bool := 48 ≤ b && b ≤ 57

/-- `trim_left_index`: index of the first non-space byte, or the length if all
bytes are spaces. -/
def trim_left_index : List Nat → Nat
  | [] => 0
  | b :: rest => if isspaceB b then trim_left_index rest + 1 else 0

/-- Helper for `trim_right_index`: `e` is the current `end` cursor. -/
def trim_right_aux (l : List Nat) (start : Nat) : Nat → Nat
  | 0 => 0
  | e + 1 =>
    if e + 1 ≤ start then e + 1
    else if isspaceB (l.getD e 0) then trim_right_aux l start e
    else e + 1

/-- `trim_right_index`: moves `end` left from `line_len` over trailing spaces,
stopping at `start`. -/
def trim_right_index (l : List Nat) (start : Nat) : Nat :=
  trim_right_aux l start l.length

/-- `is_blank_or_comment`: all-space line, or first non-space byte is `#`. -/
def is_blank_or_comment (l : List Nat) : Bool :=
  let start := trim_left_index l
  if start ≥ l.length then true else l.getD start 0 = 35

/-- Helper scanning candidate pipe indices in ascending order. -/
def find_pipe_aux (l : List Nat) : List Nat → Option Nat
  | [] => none
  | i :: rest => if l.getD i 0 = 124 then some i else find_pipe_aux l rest

/-- `find_pipe_index`: first index `i` with `1 ≤ i`, `i + 1 < line_len` and
`line[i] = '|'`. -/
def find_pipe_index (l : List Nat) : Option Nat :=
  find_pipe_aux l (List.range' 1 (l.length - 2))

/-- C `strlen` on a byte slice that is NUL-terminated right after it: length
up to the first NUL byte inside the slice, or the slice length. -/
def strlenB (l : List Nat) : Nat := (l.takeWhile (fun b => b ≠ 0)).length

/-- Digit-string value (the slice is already known to be all digits). -/
def digitsVal (l : List Nat) : Nat := l.foldl (fun acc b => acc * 10 + (b - 48)) 0

/-- `parse_seconds_value`: models `strtoul(sec, &endptr, 10)` on the trimmed,
NUL-terminated slice followed by the checks
`errno == 0 && *endptr == '\0' && 1 ≤ secs && secs ≤ MAX_GROUP_SECONDS`.
The C string `strtoul` sees ends at the first NUL byte *inside* the slice
(the parser writes the terminator only at the slice's right end), so bytes
after an embedded NUL are invisible and `*endptr == '\0'` holds exactly when
the conversion consumed that whole prefix.  After trimming there is no
leading whitespace, so `strtoul` consumes an optional single sign and then
digits; `-` wraps modulo `2^64` (64-bit `unsigned long`), out-of-range
magnitudes set `ERANGE` (rejected); no digits converted leaves `endptr` at
the start, which passes the NUL check only for an empty C string, whose
value 0 then fails `secs >= 1` — so `none` is returned in every no-digit
case. -/
def parse_seconds_value (sec : List Nat) : Option Nat :=
  let cs := sec.takeWhile (fun b => b ≠ 0)
  let neg : Bool := cs.headD 0 = 45
  let body := if cs.headD 0 = 43 ∨ cs.headD 0 = 45 then cs.tail else cs
  let ds := body.takeWhile isdigitB
  let rest := body.dropWhile isdigitB
  if ds = [] then none
  else if rest ≠ [] then none
  else
    let v := digitsVal ds
    if v > U64 - 1 then none
    else
      let u := if neg then (U64 - v) % U64 else v
      if u < 1 || u > MAX_GROUP_SECONDS then none else some u

/-- State threaded by `parse_session_buffer` / `handle_line`. -/
structure PState where
  line_no : Nat
  has_group : Bool
  current_group : Nat
deriving DecidableEq, Repr

/-- `parse_header_line`.  `line` is the CR/LF-stripped line, `line_start` its
byte offset in the buffer (used for `name_offset`). -/
def parse_header_line (s : Session) (line : List Nat) (line_start line_no : Nat) :
    Except PErr Session :=
  let n := line.length
  if n < 3 || line.getD 0 0 ≠ 91 || line.getD (n - 1) 0 ≠ 93 then
    .error ⟨some line_no, "malformed header"⟩
  else
    match find_pipe_index line with
    | none => .error ⟨some line_no, "malformed header"⟩
    | some pipe =>
      let name := (line.drop 1).take (pipe - 1)
      let name_start := trim_left_index name
      let name_end := trim_right_index name name_start
      if name_start ≥ name_end then .error ⟨some line_no, "malformed header"⟩
      else
        let sec := (line.drop (pipe + 1)).take (n - 1 - (pipe + 1))
        let sec_start := trim_left_index sec
        let sec_end := trim_right_index sec sec_start
        if sec_start ≥ sec_end then .error ⟨some line_no, "malformed header"⟩
        else
          match parse_seconds_value ((sec.drop sec_start).take (sec_end - sec_start)) with
          | none => .error ⟨some line_no, "invalid seconds value"⟩
          | some seconds =>
            if s.groups.length ≥ MAX_GROUPS then .error ⟨some line_no, "too many groups"⟩
            else
              let nameT := (name.drop name_start).take (name_end - name_start)
              let name_length := strlenB nameT
              if name_length > MAX_LINE_LEN then .error ⟨some line_no, "group name too long"⟩
              else
                .ok { s with groups := s.groups ++
                  [⟨line_start + 1 + name_start, name_length, seconds, s.items.length, 0⟩] }

/-- `parse_item_line`. -/
def parse_item_line (s : Session) (st : PState) (line_start line_len : Nat) :
    Except PErr Session :=
  if ¬ st.has_group then .error ⟨some st.line_no, "item before any group header"⟩
  else if s.items.length ≥ MAX_ITEMS_TOTAL then .error ⟨some st.line_no, "too many items"⟩
  else if h : st.current_group < s.groups.length then
    let g := s.groups.get ⟨st.current_group, h⟩
    if g.item_count ≥ MAX_ITEMS_PER_GROUP then
      .error ⟨some st.line_no, "too many items in group"⟩
    else
      .ok { s with
        items := s.items ++ [⟨line_start, line_len⟩],
        groups := s.groups.set st.current_group { g with item_count := g.item_count + 1 } }
  else .error ⟨none, "assert failed: group_index < session->group_count"⟩

/-- `handle_line`: classify one (CR-stripped) line and dispatch. -/
def handle_line (s : Session) (st : PState) (line : List Nat) (line_start : Nat) :
    Except PErr (Session × PState) :=
  if is_blank_or_comment line then .ok (s, st)
  else if line.getD 0 0 = 91 then
    (if st.has_group then
      if h : st.current_group < s.groups.length then
        if (s.groups.get ⟨st.current_group, h⟩).item_count = 0 then
          Except.error ⟨some st.line_no, "previous group has no items"⟩
        else .ok ()
      else .error ⟨none, "assert failed: group_index < session->group_count"⟩
    else .ok ()).bind fun _ =>
    (parse_header_line s line line_start st.line_no).bind fun s' =>
    if s'.groups.length > 0 then
      .ok (s', { st with current_group := s'.groups.length - 1, has_group := true })
    else .error ⟨none, "assert failed: group_count > 0"⟩
  else
    (parse_item_line s st line_start line.length).map fun s' => (s', st)

/-- Split the buffer at `\n` boundaries, keeping the (possibly empty) final
segment, exactly like the scan loop in `parse_session_buffer`. -/
def splitLines : List Nat → List (List Nat)
  | [] => [[]]
  | b :: rest =>
    if b = 10 then [] :: splitLines rest
    else
      match splitLines rest with
      | s :: ss => (b :: s) :: ss
      | [] => [[b]]

/-- Strip one trailing `\r` from a raw line segment. -/
def stripCR (seg : List Nat) : List Nat :=
  if seg.getLast? = some 13 then seg.dropLast else seg

/-- Per-line loop of `parse_session_buffer`: `pos` is the byte offset of the
current segment's first byte (`line_start`). -/
def parse_lines : List (List Nat) → Nat → PState → Session → Except PErr (Session × PState)
  | [], _, st, s => .ok (s, st)
  | seg :: rest, pos, st, s =>
    let line := stripCR seg
    if line.length > MAX_LINE_LEN then .error ⟨some st.line_no, "line too long"⟩
    else
      (handle_line s st line pos).bind fun p =>
        parse_lines rest (pos + seg.length + 1) { p.2 with line_no := p.2.line_no + 1 } p.1

/-- `parse_session_buffer`: split into lines, run the loop, then the
end-of-input checks. -/
def parse_session_buffer (s : Session) : Except PErr Session :=
  (parse_lines (splitLines s.buffer) 0 ⟨1, false, 0⟩ s).bind fun p =>
    let s' := p.1
    let st := p.2
    if s'.groups.length = 0 then .error ⟨none, "no groups found"⟩
    else if st.has_group then
      if h : st.current_group < s'.groups.length then
        if (s'.groups.get ⟨st.current_group, h⟩).item_count = 0 then
          .error ⟨some st.line_no, "last group has no items"⟩
        else .ok s'
      else .error ⟨none, "assert failed: group_index < session->group_count"⟩
    else .ok s'

/-- `read_file_into_session`: `file = none` models an unopenable path, `some
contents` a readable file with those bytes.  `fread` reads at most
`MAX_FILE_BYTES` bytes and the following `fgetc` detects a file that has at
least one more byte; `errnoStr` is the `strerror` text for the open failure.
The open-failure message is built by `snprintf` into a 256-byte buffer; on
truncation (`rc >= 256`) the code falls back to a generic message. -/
def read_file_into_session (path : String) (errnoStr : String)
    (file : Option (List Nat)) (s : Session) : Except String Session :=
  match file with
  | none =>
    if 19 + path.length + errnoStr.length ≥ 256 then .error "failed to open file"
    else .error ("Failed to open '" ++ path ++ "': " ++ errnoStr)
  | some contents =>
    if contents.length > MAX_FILE_BYTES then .error "file exceeds MAX_FILE_BYTES"
    else .ok { s with buffer := contents }

/-- `parse_session_file`: `session_init` (empty session), read, then parse.
Parse errors are reported as their message text (line-numbered messages are
formatted `Line n: msg` by `set_error_line`). -/
def renderPErr (e : PErr) : String :=
  match e.line with
  | none => e.msg
  | some n => "Line " ++ toString n ++ ": " ++ e.msg

def parse_session_file (path : String) (errnoStr : String) (file : Option (List Nat)) :
    Except String Session :=
  (read_file_into_session path errnoStr file ⟨[], [], []⟩).bind fun s =>
    match parse_session_buffer s with
    | .error e => .error (renderPErr e)
    | .ok s' => .ok s'

/-! ## RNG (src/rng.c)

`rng_init` seeds from `/dev/urandom` (falling back to time/pid) — an external
effect; the embedding takes the resulting nonzero 64-bit state as given. -/

/-- `rng_next_u64`: xorshift64* step.  The C code asserts a nonzero state and
returns 0 (state untouched) if it is zero.  Returns `(output, new state)`. -/
def rng_next_u64 (st : Nat) : Nat × Nat :=
  if st = 0 then (0, st)
  else
    let x1 := st ^^^ (st >>> 12)
    let x2 := x1 ^^^ ((x1 <<< 25) % U64)
    let x3 := x2 ^^^ (x2 >>> 27)
    (x3 * 0x2545F4914F6CDD1D % U64, x3)

/-- Retry loop of `rng_range`: up to `fuel` threshold-checked draws, then one
final unconditional draw. -/
def rng_range_go (upper threshold : Nat) : Nat → Nat → Nat × Nat
  | st, 0 =>
    let d := rng_next_u64 st
    (d.1 % upper, d.2)
  | st, fuel + 1 =>
    let d := rng_next_u64 st
    if d.1 ≥ threshold then (d.1 % upper, d.2) else rng_range_go upper threshold d.2 fuel

/-- The rejection threshold `(u64)(-upper) % upper`: the unary minus on the
64-bit `size_t` is `(2^64 - upper % 2^64) % 2^64`. -/
def rng_threshold (upper : Nat) : Nat := ((U64 - upper % U64) % U64) % upper

/-- `rng_range`: unbiased value in `[0, upper)`. -/
def rng_range (st upper : Nat) : Nat × Nat :=
  if upper = 0 then (0, st)
  else rng_range_go upper (rng_threshold upper) st RNG_RETRY_LIMIT

/-- The three-assignment swap `tmp = v[i]; v[i] = v[j]; v[j] = tmp`. -/
def swapL (l : List Nat) (i j : Nat) : List Nat :=
  let vi := l.getD i 0
  let vj := l.getD j 0
  (l.set i vj).set j vi

/-- Fisher–Yates loop body: `fuel` remaining iterations, current index `i`. -/
def shuffle_go : Nat → Nat → List Nat → Nat → Nat × List Nat
  | 0, st, l, _ => (st, l)
  | fuel + 1, st, l, i =>
    let d := rng_range st (i + 1)
    shuffle_go fuel d.2 (swapL l i d.1) (i + 1)

/-- `rng_shuffle_groups`: `none` models the `-1` return of the
`count <= MAX_GROUPS` validation; `count < 2` is a no-op success.  Otherwise
runs Fisher–Yates for `i = 1 .. count-1`. -/
def rng_shuffle_groups (st : Nat) (values : List Nat) (count : Nat) :
    Option (Nat × List Nat) :=
  if count > MAX_GROUPS then none
  else if count < 2 then some (st, values)
  else some (shuffle_go (count - 1) st values 1)

/-- `rng_shuffle_items`: identical loop, `MAX_ITEMS_PER_GROUP` capacity. -/
def rng_shuffle_items (st : Nat) (values : List Nat) (count : Nat) :
    Option (Nat × List Nat) :=
  if count > MAX_ITEMS_PER_GROUP then none
  else if count < 2 then some (st, values)
  else some (shuffle_go (count - 1) st values 1)

/-! ## Runner (src/runner.c)

State machine with deterministic external streams.  Log calls append events
to the trace; the data-validation checks the log functions perform are kept,
the file write itself is modelled as succeeding. -/

/-- Events emitted through the logger. -/
inductive Ev where
  | simple (tag msg : String)
  | key (k : Nat)
  | prompt (gi ii : Nat)
  | logGroup (tag : String) (gi : Nat)
  | shuffleItems (gi : Nat)
deriving DecidableEq, Repr

/-- Result of one `term_read_key_timeout` call, chosen by the environment:
`1`+byte, `0` (timeout / EINTR), or `-1` (I/O error). -/
inductive KeyRes where
  | timeout
  | key (k : Nat)
  | err
deriving DecidableEq, Repr

/-- `struct runtime`. -/
structure Runtime where
  order_pos : Nat
  group_index : Nat
  item_pos : Nat
  item_index : Nat
  group_end : Nat
  pending_switch : Bool
deriving DecidableEq, Repr

/-- Runner machine: runtime + the two caller-owned order arrays + RNG state +
event trace + the clock and key input streams with their read cursors. -/
structure Mach where
  rt : Runtime
  group_order : List Nat
  item_order : List Nat
  rng : Nat
  trace : List Ev
  clocks : Nat → Nat
  cpos : Nat
  keys : Nat → KeyRes
  kpos : Nat

def addEv (m : Mach) (e : Ev) : Mach := { m with trace := m.trace ++ [e] }

/-- `now_ms`: reads the monotonic clock stream. -/
def now_ms (m : Mach) : Nat × Mach := (m.clocks m.cpos, { m with cpos := m.cpos + 1 })

/-- `log_simple`. -/
def log_simple (m : Mach) (tag msg : String) : Int × Mach := (0, addEv m (.simple tag msg))

/-- `log_key`: validates `0 ≤ key ≤ 255` before anything else. -/
def log_key (m : Mach) (k : Nat) : Int × Mach :=
  if k > 255 then (-1, m) else (0, addEv m (.key k))

/-- `log_group`: asserts `group_index < MAX_GROUPS`. -/
def log_group (m : Mach) (tag : String) (gi : Nat) : Int × Mach :=
  if gi ≥ MAX_GROUPS then (-1, m) else (0, addEv m (.logGroup tag gi))

/-- `log_shuffle`: asserts `group_index < MAX_GROUPS` (runner calls it with
tag `"items"` only). -/
def log_shuffle (m : Mach) (gi : Nat) : Int × Mach :=
  if gi ≥ MAX_GROUPS then (-1, m) else (0, addEv m (.shuffleItems gi))

/-- `log_prompt` (src/log.c): the index/range assertions it performs around
the checksum computation. -/
def log_prompt (s : Session) (m : Mach) (gi ii : Nat) : Int × Mach :=
  if gi ≥ s.groups.length then (-1, m)
  else if ii ≥ s.items.length then (-1, m)
  else if gi ≥ MAX_GROUPS then (-1, m)
  else if ii ≥ MAX_ITEMS_TOTAL then (-1, m)
  else
    let g := s.groups.getD gi ⟨0, 0, 0, 0, 0⟩
    let it := s.items.getD ii ⟨0, 0⟩
    if g.name_offset + g.name_length > s.buffer.length then (-1, m)
    else if it.offset + it.length > s.buffer.length then (-1, m)
    else (0, addEv m (.prompt gi ii))

/-- `assert_session_bounds`. -/
def assert_session_bounds (s : Session) : Bool :=
  0 < s.groups.length && s.groups.length ≤ MAX_GROUPS &&
    s.groups.all fun g => 0 < g.item_count && g.item_count ≤ MAX_ITEMS_PER_GROUP

/-- `draw_prompt`: the assertions guarding the render (the escape-sequence
and stdout writes themselves are modelled as succeeding). -/
def draw_prompt (s : Session) (item_index : Nat) : Int :=
  if item_index ≥ s.items.length then -1
  else if s.buffer.length = 0 then -1
  else
    let it := s.items.getD item_index ⟨0, 0⟩
    if it.length = 0 then -1
    else if it.offset + it.length > s.buffer.length then -1
    else 0

/-- `is_advance_key`: space, CR, LF or alphanumeric. -/
def is_advance_key (k : Nat) : Bool :=
  if k > 255 then false
  else k = 32 || k = 13 || k = 10 ||
    (48 ≤ k && k ≤ 57) || (65 ≤ k && k ≤ 90) || (97 ≤ k && k ≤ 122)

/-- `init_group_order`: identity order on the live prefix. -/
def init_group_order (s : Session) (m : Mach) : Int × Mach :=
  if assert_session_bounds s then (0, { m with group_order := List.range s.groups.length })
  else (-1, m)

/-- `init_item_order`: the active group's item range in ascending order. -/
def init_item_order (s : Session) (m : Mach) (group_index : Nat) : Int × Mach :=
  if h : group_index < s.groups.length then
    let g := s.groups.get ⟨group_index, h⟩
    if g.item_count = 0 then (-1, m)
    else if g.item_count > MAX_ITEMS_PER_GROUP then (-1, m)
    else (0, { m with item_order := (List.range g.item_count).map (g.item_start + ·) })
  else (-1, m)

/-- `select_next_group`: reshuffle + cursor reset on wraparound, then consume
the cursor.  Note the C code writes `rt->group_index` before the bound
assert, and bumps `order_pos` after it. -/
def select_next_group (s : Session) (m : Mach) : Int × Mach :=
  if s.groups.length = 0 then (-1, m)
  else
    let step1 : Int × Mach :=
      if m.rt.order_pos ≥ s.groups.length then
        match rng_shuffle_groups m.rng m.group_order s.groups.length with
        | none => (-1, m)
        | some sg =>
          let m1 := { m with
            rng := sg.1,
            group_order := sg.2,
            rt := { m.rt with order_pos := 0 } }
          log_simple m1 "shuffle" "groups"
      else (0, m)
    if step1.1 ≠ 0 then (-1, step1.2)
    else
      let m2 := step1.2
      let gi := m2.group_order.getD m2.rt.order_pos 0
      let m3 := { m2 with rt := { m2.rt with group_index := gi } }
      if gi ≥ s.groups.length then (-1, m3)
      else (0, { m3 with rt := { m3.rt with order_pos := m3.rt.order_pos + 1 } })

/-- `select_next_item`. -/
def select_next_item (s : Session) (m : Mach) : Int × Mach :=
  if h : m.rt.group_index < s.groups.length then
    let count := (s.groups.get ⟨m.rt.group_index, h⟩).item_count
    if count = 0 then (-1, m)
    else if count > MAX_ITEMS_PER_GROUP then (-1, m)
    else
      let pos := if m.rt.item_pos ≥ count then 0 else m.rt.item_pos
      (0, { m with rt := { m.rt with
        item_pos := pos,
        item_index := m.item_order.getD pos 0 } })
  else (-1, m)

/-- `update_group_timer`: rearm the absolute deadline from the clock. -/
def update_group_timer (s : Session) (m : Mach) : Int × Mach :=
  if h : m.rt.group_index < s.groups.length then
    let seconds := (s.groups.get ⟨m.rt.group_index, h⟩).seconds
    if seconds = 0 then (-1, m)
    else if seconds > MAX_GROUP_SECONDS then (-1, m)
    else
      let nm := now_ms m
      (0, { nm.2 with rt := { nm.2.rt with group_end := nm.1 + seconds * 1000 } })
  else (-1, m)

/-- `advance_prompt`, branch stage: the group-switch path (fresh shuffled
item order, timer rearm, "group" event) or the in-group advance path (cursor
bump with reshuffle-on-wrap). -/
def advance_branch (s : Session) (m : Mach) (gi count : Nat)
    (due_to_switch : Bool) : Int × Mach :=
  if due_to_switch then
    let io := init_item_order s m gi
    if io.1 ≠ 0 then (-1, io.2)
    else
      match rng_shuffle_items io.2.rng io.2.item_order count with
      | none => (-1, io.2)
      | some sh =>
        let m2 := { io.2 with
          rng := sh.1,
          item_order := sh.2,
          rt := { io.2.rt with item_pos := 0 } }
        let ut := update_group_timer s m2
        if ut.1 ≠ 0 then (-1, ut.2) else log_group ut.2 "group" gi
  else
    let m1 := { m with rt := { m.rt with item_pos := m.rt.item_pos + 1 } }
    if m1.rt.item_pos ≥ count then
      match rng_shuffle_items m1.rng m1.item_order count with
      | none => (-1, m1)
      | some sh =>
        let m2 := { m1 with
          rng := sh.1,
          item_order := sh.2,
          rt := { m1.rt with item_pos := 0 } }
        log_shuffle m2 gi
    else (0, m1)

/-- `advance_prompt`, tail stage: select/render/log the item after a
successful branch. -/
def advance_finish (s : Session) (gi : Nat) (branch : Int × Mach) : Int × Mach :=
  if branch.1 ≠ 0 then (-1, branch.2)
  else
    let sn := select_next_item s branch.2
    if sn.1 ≠ 0 then (-1, sn.2)
    else if draw_prompt s sn.2.rt.item_index ≠ 0 then (-1, sn.2)
    else
      let lp := log_prompt s sn.2 gi sn.2.rt.item_index
      if lp.1 ≠ 0 then (-1, lp.2) else (0, lp.2)

/-- `advance_prompt`: bound checks, then branch stage and tail stage. -/
def advance_prompt (s : Session) (m : Mach) (due_to_switch : Bool) : Int × Mach :=
  if h : m.rt.group_index < s.groups.length then
    let gi := m.rt.group_index
    let count := (s.groups.get ⟨gi, h⟩).item_count
    if count = 0 then (-1, m)
    else if count > MAX_ITEMS_PER_GROUP then (-1, m)
    else advance_finish s gi (advance_branch s m gi count due_to_switch)
  else (-1, m)

/-- `update_expiry`: returns `(rc, remaining_ms, state)`. -/
def update_expiry (s : Session) (m : Mach) : Int × Nat × Mach :=
  if m.rt.group_index ≥ s.groups.length then (-1, 0, m)
  else if m.rt.pending_switch then (0, 0, m)
  else
    let nm := now_ms m
    if nm.1 ≥ nm.2.rt.group_end then
      let m2 := { nm.2 with rt := { nm.2.rt with pending_switch := true } }
      let lg := log_group m2 "expired" m2.rt.group_index
      if lg.1 ≠ 0 then (-1, 0, lg.2) else (0, 0, lg.2)
    else (0, nm.2.rt.group_end - nm.1, nm.2)

/-- `read_key`: validates the remaining-time bound, then one
`term_read_key_timeout` whose outcome the key stream dictates.  Returns
`(rc, key, state)`. -/
def read_key (m : Mach) (remaining_ms : Nat) : Int × Nat × Mach :=
  if remaining_ms > MAX_GROUP_MILLISECONDS then (-1, 0, m)
  else
    let m1 := { m with kpos := m.kpos + 1 }
    match m.keys m.kpos with
    | .err => (-1, 0, m1)
    | .timeout => (0, 0, m1)
    | .key k => (1, k, m1)

/-- `handle_key`: returns `(rc, advanced-was-set, state)`; `rc = 1` means
quit, `0` continue, `-1` error. -/
def handle_key (s : Session) (m : Mach) (key : Nat) : Int × Bool × Mach :=
  let lk := log_key m key
  if lk.1 ≠ 0 then (-1, false, lk.2)
  else if key = 3 then (1, false, lk.2)
  else if ¬ is_advance_key key then (0, false, lk.2)
  else if lk.2.rt.pending_switch then
    let sg := select_next_group s lk.2
    if sg.1 ≠ 0 then (-1, false, sg.2)
    else
      let m1 := { sg.2 with rt := { sg.2.rt with pending_switch := false } }
      let ap := advance_prompt s m1 true
      if ap.1 ≠ 0 then (-1, false, ap.2) else (0, true, ap.2)
  else
    let ap := advance_prompt s lk.2 false
    if ap.1 ≠ 0 then (-1, false, ap.2) else (0, true, ap.2)

/-- Wait-loop body with explicit fuel (`MAX_WAIT_LOOPS` iterations total);
carries the `advanced` out-flag. -/
def run_wait_loop_go (s : Session) : Nat → Bool → Mach → Int × Bool × Mach
  | 0, adv, m => (-1, adv, m)
  | fuel + 1, adv, m =>
    let ue := update_expiry s m
    if ue.1 ≠ 0 then (-1, adv, ue.2.2)
    else
      let rk := read_key ue.2.2 ue.2.1
      if rk.1 < 0 then (-1, adv, rk.2.2)
      else if rk.1 = 0 then run_wait_loop_go s fuel adv rk.2.2
      else
        let hk := handle_key s rk.2.2 rk.2.1
        let adv' := adv || hk.2.1
        if hk.1 < 0 then (-1, adv', hk.2.2)
        else if hk.1 > 0 || adv' then (hk.1, adv', hk.2.2)
        else run_wait_loop_go s fuel adv' hk.2.2

/-- `run_wait_loop`. -/
def run_wait_loop (s : Session) (m : Mach) : Int × Bool × Mach :=
  run_wait_loop_go s MAX_WAIT_LOOPS false m

/-- Main-loop body: the C `for (step = 1; step < MAX_PROMPTS_PER_RUN; step++)`
performs `MAX_PROMPTS_PER_RUN - 1` iterations, then falls through to
`return 0`. -/
def run_loop_go (s : Session) : Nat → Mach → Int × Mach
  | 0, m => (0, m)
  | fuel + 1, m =>
    let w := run_wait_loop s m
    if w.1 < 0 then (-1, w.2.2)
    else if w.1 > 0 then (0, w.2.2)
    else if ¬ w.2.1 then
      let ls := log_simple w.2.2 "error" "wait loop exceeded"
      if ls.1 ≠ 0 then (-1, ls.2) else (-1, ls.2)
    else run_loop_go s fuel w.2.2

/-- `run_loop`. -/
def run_loop (s : Session) (m : Mach) : Int × Mach :=
  if s.groups.length = 0 then (-1, m)
  else run_loop_go s (MAX_PROMPTS_PER_RUN - 1) m

/-! ## Terminal-acquisition wrapper (src/main.c, `run_with_terminal`) -/

/-- Terminal operations, in call order. -/
inductive TOp where
  | enterRaw
  | hideCursor
  | loopRun
  | restore
  | showCursor
  | clearScreen
deriving DecidableEq, Repr

/-- Environment outcomes for one `run_with_terminal` call: whether
`term_enter_raw` and `term_hide_cursor` succeed, the `run_loop` result, and
the outcomes of the three release calls. -/
structure TermEnv where
  enter_raw_ok : Bool
  hide_cursor_ok : Bool
  run_loop_rc : Int
  restore_ok : Bool
  show_cursor_ok : Bool
  clear_screen_ok : Bool
deriving DecidableEq, Repr

/-- `run_with_terminal`: returns the result code and the sequence of terminal
calls actually made. -/
def run_with_terminal (env : TermEnv) : Int × List TOp :=
  if ¬ env.enter_raw_ok then (-1, [.enterRaw])
  else if ¬ env.hide_cursor_ok then (-1, [.enterRaw, .hideCursor])
  else
    let calls : List TOp :=
      [.enterRaw, .hideCursor, .loopRun, .restore, .showCursor, .clearScreen]
    if ¬ env.restore_ok then (-1, calls)
    else if ¬ env.show_cursor_ok then (-1, calls)
    else if ¬ env.clear_screen_ok then (-1, calls)
    else (env.run_loop_rc, calls)

/-! ## Helper lemmas: RNG -/

/-- One state-advance of the generator. -/
def rngStep (s : Nat) : Nat := (rng_next_u64 s).2

theorem rng_range_go_lt (upper threshold : Nat) (h : 0 < upper) :
    ∀ (fuel st : Nat), (rng_range_go upper threshold st fuel).1 < upper := by
  intro fuel
  induction fuel with
  | zero => intro st; exact Nat.mod_lt _ h
  | succ f ih =>
    intro st
    simp only [rng_range_go]
    split
    · exact Nat.mod_lt _ h
    · exact ih _

theorem rng_range_lt (st upper : Nat) (h : 0 < upper) : (rng_range st upper).1 < upper := by
  unfold rng_range
  rw [if_neg (Nat.pos_iff_ne_zero.mp h)]
  exact rng_range_go_lt _ _ h _ _

theorem rng_range_go_draws (upper threshold : Nat) :
    ∀ (fuel st : Nat), ∃ k, k ≤ fuel + 1 ∧
      (rng_range_go upper threshold st fuel).2 = rngStep^[k] st := by
  intro fuel
  induction fuel with
  | zero => intro st; exact ⟨1, Nat.le_refl _, rfl⟩
  | succ f ih =>
    intro st
    simp only [rng_range_go]
    split
    · exact ⟨1, by omega, rfl⟩
    · obtain ⟨k, hk, he⟩ := ih (rng_next_u64 st).2
      refine ⟨k + 1, by omega, ?_⟩
      rw [Function.iterate_succ_apply]
      exact he

/-! ## Helper lemmas: swap and shuffle permutations -/

theorem set_getElem_self_eq (l : List Nat) (i : Nat) (hi : i < l.length) :
    l.set i l[i] = l := by
  apply List.ext_getElem (by simp)
  intro n h1 h2
  rcases eq_or_ne i n with rfl | h
  · simp
  · simp [List.getElem_set_ne h]

theorem swapL_length (l : List Nat) (i j : Nat) : (swapL l i j).length = l.length := by
  simp [swapL]

theorem swapL_perm (l : List Nat) (i j : Nat) (hi : i < l.length) (hj : j < l.length) :
    (swapL l i j).Perm l := by
  rcases eq_or_ne i j with rfl | hij
  · show ((l.set i (l.getD i 0)).set i (l.getD i 0)).Perm l
    rw [List.set_set, List.getD_eq_getElem _ _ hi, set_getElem_self_eq _ _ hi]
  · show ((l.set i (l.getD j 0)).set j (l.getD i 0)).Perm l
    rw [List.perm_iff_count]
    intro x
    have hj' : j < (l.set i (l.getD j 0)).length := by simpa using hj
    rw [List.count_set _ _ _ _ hj', List.count_set _ _ _ _ hi]
    have hset : (l.set i (l.getD j 0))[j] = l[j] := List.getElem_set_ne hij hj'
    rw [hset, List.getD_eq_getElem _ _ hi, List.getD_eq_getElem _ _ hj]
    have hci : l[i] = x → 1 ≤ l.count x := fun hx =>
      List.count_pos_iff.mpr (hx ▸ List.getElem_mem hi)
    have hcj : l[j] = x → 1 ≤ l.count x := fun hx =>
      List.count_pos_iff.mpr (hx ▸ List.getElem_mem hj)
    by_cases h1 : l[i] = x <;> by_cases h2 : l[j] = x <;>
      simp [h1, h2] <;> omega

theorem shuffle_go_perm : ∀ (fuel st : Nat) (l : List Nat) (i : Nat),
    i + fuel ≤ l.length → ((shuffle_go fuel st l i).2).Perm l := by
  intro fuel
  induction fuel with
  | zero => intro st l i _; exact List.Perm.refl _
  | succ f ih =>
    intro st l i h
    have hi : i < l.length := by omega
    have hjlt : (rng_range st (i + 1)).1 < i + 1 := rng_range_lt _ _ (Nat.succ_pos i)
    have hj : (rng_range st (i + 1)).1 < l.length := by omega
    have hlen := swapL_length l i (rng_range st (i + 1)).1
    have hrec := ih (rng_range st (i + 1)).2 (swapL l i (rng_range st (i + 1)).1) (i + 1)
      (by rw [hlen]; omega)
    exact List.Perm.trans hrec (swapL_perm l i _ hi hj)

/-! ## Helper lemmas: counting residues in an interval -/

theorem residue_unique {n a r m : Nat} (_hn : 0 < n)
    (hr1 : a ≤ r) (hr2 : r < a + n) (hm1 : a ≤ m) (hm2 : m < a + n)
    (h : r % n = m % n) : r = m := by
  rcases Nat.le_total r m with hle | hle
  · have hd : n ∣ m - r := (Nat.modEq_iff_dvd' hle).mp h
    rcases Nat.eq_zero_or_pos (m - r) with h0 | hpos
    · omega
    · have := Nat.le_of_dvd hpos hd; omega
  · have hd : n ∣ r - m := (Nat.modEq_iff_dvd' hle).mp h.symm
    rcases Nat.eq_zero_or_pos (r - m) with h0 | hpos
    · omega
    · have := Nat.le_of_dvd hpos hd; omega

theorem residue_window_card {n : Nat} (hn : 0 < n) {k : Nat} (hk : k < n) (a : Nat) :
    ((Finset.Ico a (a + n)).filter (fun r => r % n = k)).card = 1 := by
  have hbase : n * (a / n) + a % n = a := Nat.div_add_mod a n
  have hmod : a % n < n := Nat.mod_lt _ hn
  set m : Nat := if a % n ≤ k then n * (a / n) + k else n * (a / n) + n + k with hmdef
  have hmk : m % n = k := by
    rcases le_or_lt (a % n) k with hc | hc
    · rw [hmdef, if_pos hc, Nat.mul_add_mod]
      exact Nat.mod_eq_of_lt hk
    · rw [hmdef, if_neg (by omega)]
      have : n * (a / n) + n + k = n * (a / n + 1) + k := by ring
      rw [this, Nat.mul_add_mod]
      exact Nat.mod_eq_of_lt hk
  have hbounds : a ≤ m ∧ m < a + n := by
    rcases le_or_lt (a % n) k with hc | hc
    · rw [hmdef, if_pos hc]
      generalize n * (a / n) = P at hbase
      omega
    · rw [hmdef, if_neg (by omega)]
      generalize n * (a / n) = P at hbase
      omega
  have hsing : (Finset.Ico a (a + n)).filter (fun r => r % n = k) = {m} := by
    apply Finset.eq_singleton_iff_unique_mem.mpr
    constructor
    · rw [Finset.mem_filter, Finset.mem_Ico]
      exact ⟨⟨hbounds.1, hbounds.2⟩, hmk⟩
    · intro r hr
      rw [Finset.mem_filter, Finset.mem_Ico] at hr
      exact residue_unique hn hr.1.1 hr.1.2 hbounds.1 hbounds.2 (by rw [hr.2, hmk])
  rw [hsing, Finset.card_singleton]

theorem residue_count {n : Nat} (hn : 0 < n) {k : Nat} (hk : k < n) :
    ∀ (q a : Nat), ((Finset.Ico a (a + n * q)).filter (fun r => r % n = k)).card = q := by
  intro q
  induction q with
  | zero => intro a; simp
  | succ p ih =>
    intro a
    have hsplit : Finset.Ico a (a + n * (p + 1)) =
        Finset.Ico a (a + n) ∪ Finset.Ico (a + n) (a + n * (p + 1)) := by
      rw [Finset.Ico_union_Ico_eq_Ico]
      · omega
      · have : n * (p + 1) = n * p + n := by ring
        omega
    have hdisj : Disjoint ((Finset.Ico a (a + n)).filter (fun r => r % n = k))
        ((Finset.Ico (a + n) (a + n * (p + 1))).filter (fun r => r % n = k)) :=
      Finset.disjoint_filter_filter (Finset.Ico_disjoint_Ico_consecutive a (a + n) _)
    have hrw : a + n * (p + 1) = (a + n) + n * p := by ring
    rw [hsplit, Finset.filter_union, Finset.card_union_of_disjoint hdisj,
      residue_window_card hn hk a, hrw, ih (a + n)]
    omega

/-! ## Claim theorems -/

/-- C1: the claim states that whenever `term_enter_raw` succeeded, every exit
path of the runner calls `term_restore`, `term_show_cursor` and
`term_clear_screen` before returning.  The code violates this: when
`term_hide_cursor` fails right after raw mode was entered,
`run_with_terminal` returns `-1` having performed only the `enter_raw` and
`hide_cursor` calls, so the raw-mode terminal is left active.  This theorem
evaluates the embedded `run_with_terminal` at that failing environment. -/
theorem c1_hide_cursor_failure_skips_restore :
    (run_with_terminal ⟨true, false, 0, true, true, true⟩).1 = -1 ∧
    (run_with_terminal ⟨true, false, 0, true, true, true⟩).2 = [.enterRaw, .hideCursor] ∧
    TOp.restore ∉ (run_with_terminal ⟨true, false, 0, true, true, true⟩).2 ∧
    TOp.showCursor ∉ (run_with_terminal ⟨true, false, 0, true, true, true⟩).2 ∧
    TOp.clearScreen ∉ (run_with_terminal ⟨true, false, 0, true, true, true⟩).2 := by
  decide

/-- C5 (amended): a readable file of exactly `MAX_FILE_BYTES` bytes is loaded
in full and handed to the line parser; a file with at least one byte more is
rejected with the oversize error; an unopenable file is rejected with an
error naming the path whenever the formatted message fits `snprintf`'s
256-byte buffer (`19 + |path| + |strerror text| < 256`), otherwise the code
falls back to the generic `"failed to open file"` message. -/
theorem c5_file_size_and_open_errors (path errnoStr : String) (contents : List Nat) :
    (contents.length = MAX_FILE_BYTES →
      read_file_into_session path errnoStr (some contents) ⟨[], [], []⟩ =
        .ok ⟨contents, [], []⟩ ∧
      parse_session_file path errnoStr (some contents) =
        match parse_session_buffer ⟨contents, [], []⟩ with
        | .error e => .error (renderPErr e)
        | .ok s' => .ok s') ∧
    (MAX_FILE_BYTES + 1 ≤ contents.length →
      parse_session_file path errnoStr (some contents) =
        .error "file exceeds MAX_FILE_BYTES") ∧
    (19 + path.length + errnoStr.length < 256 →
      parse_session_file path errnoStr none =
        .error ("Failed to open '" ++ path ++ "': " ++ errnoStr) ∧
      ∃ pre post : String,
        "Failed to open '" ++ path ++ "': " ++ errnoStr = pre ++ path ++ post) := by
  refine ⟨fun h => ?_, fun h => ?_, fun h => ?_⟩
  · have hnot : ¬ contents.length > MAX_FILE_BYTES := by omega
    constructor
    · simp [read_file_into_session, hnot]
    · simp [parse_session_file, read_file_into_session, hnot, Except.bind]
  · have hgt : contents.length > MAX_FILE_BYTES := by omega
    simp [parse_session_file, read_file_into_session, hgt, Except.bind]
  · have hnot : ¬ 19 + path.length + errnoStr.length ≥ 256 := by omega
    refine ⟨?_, "Failed to open '", "': " ++ errnoStr, ?_⟩
    · simp [parse_session_file, read_file_into_session, hnot, Except.bind]
    · rw [String.append_assoc]

/-- C5 witness: a file of exactly the byte cap is read in full. -/
theorem c5_witness :
    read_file_into_session "x" "e" (some (List.replicate MAX_FILE_BYTES 97)) ⟨[], [], []⟩ =
      .ok ⟨List.replicate MAX_FILE_BYTES 97, [], []⟩ :=
  ((c5_file_size_and_open_errors "x" "e" (List.replicate MAX_FILE_BYTES 97)).1
    (by simp)).1

/-- The 300-byte path used in the C5 counterexample. -/
def c5LongPath : String := String.mk (List.replicate 300 'a')

set_option maxRecDepth 8000 in
/-- C5 counterexample: for a path of 300 bytes, the open-failure message is
the generic `"failed to open file"` — it does not name the path, refuting
the claim's "rejected with an error naming the path" for this input. -/
theorem c5_long_path_not_named :
    parse_session_file c5LongPath "No such file or directory" none =
      .error "failed to open file" ∧
    ¬ ∃ pre post : String, "failed to open file" = pre ++ c5LongPath ++ post := by
  constructor
  · rfl
  · rintro ⟨pre, post, h⟩
    have hL := congrArg String.length h
    rw [String.length_append, String.length_append] at hL
    have h1 : ("failed to open file" : String).length = 19 := by decide
    have h2 : c5LongPath.length = 300 := by decide
    omega

/-- C7: for `0 < n < 2^64`, `rng_range` computes the threshold `(-n) mod n`
(which equals `2^64 mod n`), returns a value in `[0, n)` after at most
`RNG_RETRY_LIMIT` threshold-checked draws plus one final unconditional draw;
within the retry phase a draw `r` is rejected iff `r < threshold`, otherwise
`r mod n` is returned; and over the accepted range `[threshold, 2^64)` every
residue in `[0, n)` has exactly `(2^64 - threshold)/n` preimages. -/
theorem c7_rng_range_unbiased (st upper : Nat) (h0 : 0 < upper) (h1 : upper < U64) :
    rng_threshold upper = U64 % upper ∧
    (rng_range st upper).1 < upper ∧
    (∃ k, k ≤ RNG_RETRY_LIMIT + 1 ∧ (rng_range st upper).2 = rngStep^[k] st) ∧
    (∀ (fuel s : Nat),
      rng_range_go upper (rng_threshold upper) s (fuel + 1) =
        if (rng_next_u64 s).1 ≥ rng_threshold upper then
          ((rng_next_u64 s).1 % upper, (rng_next_u64 s).2)
        else rng_range_go upper (rng_threshold upper) (rng_next_u64 s).2 fuel) ∧
    (∀ s : Nat, rng_range_go upper (rng_threshold upper) s 0 =
      ((rng_next_u64 s).1 % upper, (rng_next_u64 s).2)) ∧
    (∀ k, k < upper →
      ((Finset.Ico (rng_threshold upper) U64).filter (fun r => r % upper = k)).card =
        (U64 - rng_threshold upper) / upper) := by
  have hU : 0 < U64 := by decide
  have hthr : rng_threshold upper = U64 % upper := by
    unfold rng_threshold
    rw [Nat.mod_eq_of_lt h1, Nat.mod_eq_of_lt (by omega : U64 - upper < U64)]
    conv_rhs => rw [← Nat.sub_add_cancel (Nat.le_of_lt h1)]
    rw [Nat.add_mod_right]
  refine ⟨hthr, rng_range_lt _ _ h0, ?_, ?_, ?_, ?_⟩
  · unfold rng_range
    rw [if_neg (Nat.pos_iff_ne_zero.mp h0)]
    exact rng_range_go_draws _ _ _ _
  · intro fuel s; rfl
  · intro s; rfl
  · intro k hk
    have hmoddiv : rng_threshold upper + upper * (U64 / upper) = U64 := by
      rw [hthr]; exact Nat.mod_add_div _ _
    have hcard := residue_count h0 hk (U64 / upper) (rng_threshold upper)
    rw [hmoddiv] at hcard
    rw [hcard]
    have hsub : U64 - rng_threshold upper = upper * (U64 / upper) := by omega
    rw [hsub, Nat.mul_div_cancel_left _ h0]

/-- C7 witness at `n = 6`, state 1. -/
theorem c7_witness : (rng_range 1 6).1 < 6 :=
  (c7_rng_range_unbiased 1 6 (by decide) (by decide)).2.1

/-- C8: both shuffle functions succeed for any `count` within their capacity
bound that fits the array, the shuffled array is a permutation of its prior
contents, `count < 2` is a no-op returning success, and the loop is
Fisher–Yates: step `i` swaps element `i` with an index drawn from `[0, i]`. -/
theorem c8_shuffle_fisher_yates (st : Nat) (values : List Nat) (count : Nat)
    (hlen : count ≤ values.length) :
    (count ≤ MAX_GROUPS →
      ∃ r, rng_shuffle_groups st values count = some r ∧ r.2.Perm values ∧
        (count < 2 → r = (st, values))) ∧
    (count ≤ MAX_ITEMS_PER_GROUP →
      ∃ r, rng_shuffle_items st values count = some r ∧ r.2.Perm values ∧
        (count < 2 → r = (st, values))) ∧
    (∀ (f s : Nat) (l : List Nat) (i : Nat),
      shuffle_go (f + 1) s l i =
        shuffle_go f (rng_range s (i + 1)).2 (swapL l i (rng_range s (i + 1)).1) (i + 1)) ∧
    (∀ (s i : Nat), (rng_range s (i + 1)).1 ≤ i) := by
  have hperm : 2 ≤ count → ((shuffle_go (count - 1) st values 1).2).Perm values := by
    intro h2
    exact shuffle_go_perm (count - 1) st values 1 (by omega)
  refine ⟨fun hg => ?_, fun hi => ?_, fun f s l i => rfl, fun s i => ?_⟩
  · by_cases h2 : count < 2
    · refine ⟨(st, values), ?_, List.Perm.refl _, fun _ => rfl⟩
      unfold rng_shuffle_groups
      rw [if_neg (by omega), if_pos h2]
    · refine ⟨shuffle_go (count - 1) st values 1, ?_, hperm (by omega), fun h => absurd h h2⟩
      unfold rng_shuffle_groups
      rw [if_neg (by omega), if_neg h2]
  · by_cases h2 : count < 2
    · refine ⟨(st, values), ?_, List.Perm.refl _, fun _ => rfl⟩
      unfold rng_shuffle_items
      rw [if_neg (by omega), if_pos h2]
    · refine ⟨shuffle_go (count - 1) st values 1, ?_, hperm (by omega), fun h => absurd h h2⟩
      unfold rng_shuffle_items
      rw [if_neg (by omega), if_neg h2]
  · have := rng_range_lt s (i + 1) (Nat.succ_pos i)
    omega

/-- C8 witness: shuffling a 3-element array succeeds and permutes it. -/
theorem c8_witness :
    ∃ r, rng_shuffle_groups 1 [10, 20, 30] 3 = some r ∧ r.2.Perm [10, 20, 30] := by
  obtain ⟨r, hsome, hperm, _⟩ :=
    (c8_shuffle_fisher_yates 1 [10, 20, 30] 3 (by decide)).1 (by decide)
  exact ⟨r, hsome, hperm⟩

/-! ## Helper definitions and lemmas: parser structure (C3, C4) -/

/-- Total number of items owned by a list of groups. -/
def sumCounts (gs : List Group) : Nat := (gs.map (·.item_count)).sum

/-- The (line offset, CR-stripped content) pairs of the lines the parser
classifies as item lines (not blank/commentential, not `[`-led), walking the
split segments with their byte offsets. -/
def item_lines_go : List (List Nat) → Nat → List (Nat × List Nat)
  | [], _ => []
  | seg :: rest, pos =>
    let line := stripCR seg
    (if is_blank_or_comment line = false ∧ line.getD 0 0 ≠ 91 then [(pos, line)] else []) ++
      item_lines_go rest (pos + seg.length + 1)

def item_lines (buf : List Nat) : List (Nat × List Nat) := item_lines_go (splitLines buf) 0

/-- The split segments sit at their byte offsets inside the buffer. -/
def segsOK (buf : List Nat) : List (List Nat) → Nat → Prop
  | [], _ => True
  | seg :: rest, pos => (buf.drop pos).take seg.length = seg ∧ segsOK buf rest (pos + seg.length + 1)

theorem take_set_le {α : Type} (l : List α) (n : Nat) (a : α) (m : Nat) (h : m ≤ n) :
    (l.set n a).take m = l.take m := by
  apply List.ext_getElem (by simp)
  intro i h1 h2
  have hi : i < m ∧ i < l.length := by simpa using h1
  rw [List.getElem_take, List.getElem_take, List.getElem_set_ne (by omega)]

theorem sum_set_nat (l : List Nat) : ∀ (i : Nat), i < l.length → ∀ v : Nat,
    (l.set i v).sum + l.getD i 0 = l.sum + v := by
  induction l with
  | nil => intro i h; simp at h
  | cons b rest ih =>
    intro i h v
    cases i with
    | zero => simp [List.sum_cons]; omega
    | succ n =>
      have hrec := ih n (by simpa using h) v
      simp only [List.set_cons_succ, List.sum_cons, List.getD_cons_succ]
      omega

theorem splitLines_ne_nil (buf : List Nat) : splitLines buf ≠ [] := by
  cases buf with
  | nil => simp [splitLines]
  | cons b rest =>
    unfold splitLines
    split
    · simp
    · split <;> simp

theorem segsOK_shift (buf : List Nat) (b : Nat) :
    ∀ (ss : List (List Nat)) (pos : Nat), segsOK buf ss pos → segsOK (b :: buf) ss (pos + 1) := by
  intro ss
  induction ss with
  | nil => intro pos _; trivial
  | cons seg rest ih =>
    intro pos h
    obtain ⟨h1, h2⟩ := h
    refine ⟨?_, ?_⟩
    · simpa using h1
    · have := ih (pos + seg.length + 1) h2
      have harr : pos + seg.length + 1 + 1 = pos + 1 + seg.length + 1 := by omega
      rwa [harr] at this

theorem splitLines_segsOK : ∀ (buf : List Nat), segsOK buf (splitLines buf) 0 := by
  intro buf
  induction buf with
  | nil => exact ⟨by simp, trivial⟩
  | cons b rest ih =>
    unfold splitLines
    split
    · -- b = 10
      refine ⟨by simp, ?_⟩
      have := segsOK_shift rest b _ _ ih
      simpa using this
    · -- b ≠ 10
      split
      next s ss heq =>
        rw [heq] at ih
        obtain ⟨h1, h2⟩ := ih
        refine ⟨?_, ?_⟩
        · simpa using congrArg (List.cons b) h1
        · have := segsOK_shift rest b _ _ h2
          have harr : 0 + s.length + 1 + 1 = 0 + (b :: s).length + 1 := by
            simp only [List.length_cons]
            omega
          rwa [harr] at this
      next heq => exact absurd heq (splitLines_ne_nil rest)

theorem stripCR_len_le (seg : List Nat) : (stripCR seg).length ≤ seg.length := by
  unfold stripCR
  split
  · simp [List.length_dropLast]
  · exact Nat.le_refl _

theorem stripCR_take (seg : List Nat) : seg.take (stripCR seg).length = stripCR seg := by
  unfold stripCR
  split
  · rw [List.dropLast_eq_take, List.length_take, Nat.min_eq_left (by omega)]
  · exact List.take_length seg

theorem blank_of_nil : is_blank_or_comment [] = true := by
  simp [is_blank_or_comment, trim_left_index]

theorem not_blank_pos {line : List Nat} (h : is_blank_or_comment line = false) :
    0 < line.length := by
  rcases line with _ | ⟨b, rest⟩
  · rw [blank_of_nil] at h; cases h
  · simp

/-- The byte slice of every recorded item line reproduces that line. -/
theorem item_lines_go_slice (buf : List Nat) :
    ∀ (segs : List (List Nat)) (pos : Nat), segsOK buf segs pos →
      ∀ pl ∈ item_lines_go segs pos,
        (buf.drop pl.1).take pl.2.length = pl.2 ∧ 0 < pl.2.length := by
  intro segs
  induction segs with
  | nil => intro pos _ pl hpl; simp [item_lines_go] at hpl
  | cons seg rest ih =>
    intro pos hok pl hpl
    obtain ⟨h1, h2⟩ := hok
    unfold item_lines_go at hpl
    rw [List.mem_append] at hpl
    rcases hpl with hpl | hpl
    · split at hpl
      next hcond =>
        simp only [List.mem_singleton] at hpl
        subst hpl
        constructor
        · show (buf.drop pos).take (stripCR seg).length = stripCR seg
          have hle : (stripCR seg).length ≤ seg.length := stripCR_len_le seg
          calc (buf.drop pos).take (stripCR seg).length
              = ((buf.drop pos).take seg.length).take (stripCR seg).length := by
                rw [List.take_take, Nat.min_eq_left hle]
            _ = seg.take (stripCR seg).length := by rw [h1]
            _ = stripCR seg := stripCR_take seg
        · exact not_blank_pos hcond.1
      next => simp at hpl
    · exact ih (pos + seg.length + 1) h2 pl hpl

/-- Shape of a successful `parse_header_line`: a fresh group is appended with
`item_start` = current total item count and `item_count = 0`. -/
theorem parse_header_line_ok_shape {s : Session} {line : List Nat} {ls ln : Nat} {s' : Session}
    (h : parse_header_line s line ls ln = .ok s') :
    s.groups.length < MAX_GROUPS ∧
    ∃ off nl secs, s' = { s with
      groups := s.groups ++ [⟨off, nl, secs, s.items.length, 0⟩] } := by
  unfold parse_header_line at h
  dsimp only at h
  split at h
  · exact Except.noConfusion h
  · split at h
    · exact Except.noConfusion h
    · split at h
      · exact Except.noConfusion h
      · split at h
        · exact Except.noConfusion h
        · split at h
          · exact Except.noConfusion h
          · split at h
            · exact Except.noConfusion h
            · rename_i hcap
              split at h
              · exact Except.noConfusion h
              · cases h
                exact ⟨by omega, _, _, _, rfl⟩

/-- Shape of a successful `parse_item_line`. -/
theorem parse_item_line_ok_shape {s : Session} {st : PState} {ls ll : Nat} {s' : Session}
    (h : parse_item_line s st ls ll = .ok s') :
    st.has_group = true ∧ s.items.length < MAX_ITEMS_TOTAL ∧
    ∃ hcg : st.current_group < s.groups.length,
      s' = { s with
        items := s.items ++ [⟨ls, ll⟩],
        groups := s.groups.set st.current_group
          { s.groups.get ⟨st.current_group, hcg⟩ with
            item_count := (s.groups.get ⟨st.current_group, hcg⟩).item_count + 1 } } := by
  unfold parse_item_line at h
  dsimp only at h
  split at h
  · exact Except.noConfusion h
  · split at h
    · exact Except.noConfusion h
    · split at h
      · rename_i hhg hcnt hcg
        split at h
        · exact Except.noConfusion h
        · cases h
          exact ⟨by simpa using hhg, by omega, hcg, rfl⟩
      · exact Except.noConfusion h

/-- Invariant maintained while parsing lines: the cursor tracks the last
group, groups only exist once one header was seen, every group's
`item_start` is the prefix sum of the earlier groups' counts, the counts sum
to the item total, and every group but the last already owns an item. -/
def PartInv (s : Session) (st : PState) : Prop :=
  (st.has_group = true → st.current_group + 1 = s.groups.length) ∧
  (st.has_group = false → s.groups.length = 0) ∧
  (∀ i (h : i < s.groups.length), (s.groups.get ⟨i, h⟩).item_start = sumCounts (s.groups.take i)) ∧
  sumCounts s.groups = s.items.length ∧
  (∀ i (h : i < s.groups.length), i + 1 < s.groups.length → 0 < (s.groups.get ⟨i, h⟩).item_count)

theorem sumCounts_append_one (gs : List Group) (g : Group) :
    sumCounts (gs ++ [g]) = sumCounts gs + g.item_count := by
  simp [sumCounts]

theorem sumCounts_set (gs : List Group) : ∀ (cg : Nat), cg < gs.length → ∀ g' : Group,
    sumCounts (gs.set cg g') + (gs.getD cg ⟨0, 0, 0, 0, 0⟩).item_count =
      sumCounts gs + g'.item_count := by
  induction gs with
  | nil => intro cg h; simp at h
  | cons a rest ih =>
    intro cg h g'
    cases cg with
    | zero =>
      simp only [List.set_cons_zero, List.getD_cons_zero, sumCounts, List.map_cons,
        List.sum_cons]
      omega
    | succ n =>
      have hrec := ih n (by simpa using h) g'
      simp only [List.set_cons_succ, List.getD_cons_succ, sumCounts, List.map_cons,
        List.sum_cons] at hrec ⊢
      omega

theorem sumCounts_set_succ (gs : List Group) (cg : Nat) (hcg : cg < gs.length) (g' : Group)
    (hcnt : g'.item_count = (gs.get ⟨cg, hcg⟩).item_count + 1) :
    sumCounts (gs.set cg g') = sumCounts gs + 1 := by
  have h := sumCounts_set gs cg hcg g'
  have hd : (gs.getD cg ⟨0, 0, 0, 0, 0⟩).item_count = (gs.get ⟨cg, hcg⟩).item_count := by
    rw [List.getD_eq_getElem _ _ hcg]
    rfl
  rw [hd] at h
  omega

theorem handle_line_ok {s : Session} {st : PState} {line : List Nat} {pos : Nat}
    {s1 : Session} {st1 : PState} (hinv : PartInv s st)
    (h : handle_line s st line pos = .ok (s1, st1)) :
    PartInv s1 st1 ∧
    s1.items = s.items ++
      (if is_blank_or_comment line = false ∧ line.getD 0 0 ≠ 91
        then [⟨pos, line.length⟩] else []) := by
  obtain ⟨inv1, inv2, inv3, inv4, inv5⟩ := hinv
  unfold handle_line at h
  split at h
  · -- blank or comment line: no-op
    rename_i hblank
    cases h
    refine ⟨⟨inv1, inv2, inv3, inv4, inv5⟩, ?_⟩
    rw [if_neg (by simp [hblank]), List.append_nil]
  · rename_i hnotblank
    split at h
    · -- header line
      rename_i hbracket
      -- peel the previous-group check
      have hprev : st.has_group = true →
          ∀ (hcg : st.current_group < s.groups.length),
            (s.groups.get ⟨st.current_group, hcg⟩).item_count ≠ 0 := by
        intro hhg hcg
        rw [if_pos hhg] at h
        rw [dif_pos hcg] at h
        intro hzero
        rw [if_pos hzero] at h
        simp [Except.bind] at h
      -- reduce the check to ok and extract parse_header_line
      have hbind : (parse_header_line s line pos st.line_no).bind (fun s2 =>
          if s2.groups.length > 0 then
            Except.ok (s2, { st with current_group := s2.groups.length - 1, has_group := true })
          else Except.error ⟨none, "assert failed: group_count > 0"⟩) = .ok (s1, st1) := by
        by_cases hhg : st.has_group
        · rw [if_pos hhg] at h
          have hcg : st.current_group < s.groups.length := by
            by_contra hcg
            rw [dif_neg hcg] at h
            simp [Except.bind] at h
          rw [dif_pos hcg] at h
          have hz := hprev hhg hcg
          rw [if_neg hz] at h
          simpa [Except.bind] using h
        · rw [if_neg hhg] at h
          simpa [Except.bind] using h
      cases hph : parse_header_line s line pos st.line_no with
      | error e => rw [hph] at hbind; simp [Except.bind] at hbind
      | ok s2 =>
        rw [hph] at hbind
        simp only [Except.bind] at hbind
        obtain ⟨hcap, off, nl, secs, hshape⟩ := parse_header_line_ok_shape hph
        subst hshape
        split at hbind
        · cases hbind
          constructor
          · -- PartInv for the appended group
            refine ⟨?_, ?_, ?_, ?_, ?_⟩
            · intro _
              simp
            · intro hfalse
              simp at hfalse
            · intro i hi
              simp only [List.length_append, List.length_cons, List.length_nil] at hi
              rcases Nat.lt_or_ge i s.groups.length with hilt | hige
              · rw [List.get_eq_getElem, List.getElem_append_left hilt,
                  List.take_append_of_le_length (Nat.le_of_lt hilt)]
                exact inv3 i hilt
              · have hieq : i = s.groups.length := by omega
                subst hieq
                rw [List.get_eq_getElem, List.getElem_concat_length _ _ _ rfl]
                rw [List.take_append_of_le_length (Nat.le_refl _), List.take_length]
                exact inv4.symm
            · rw [sumCounts_append_one]
              simpa using inv4
            · intro i hi hnext
              simp only [List.length_append, List.length_cons, List.length_nil] at hi hnext
              have hilt : i < s.groups.length := by omega
              rw [List.get_eq_getElem, List.getElem_append_left hilt]
              rcases Nat.lt_or_ge (i + 1) s.groups.length with hlt | hge
              · exact inv5 i hilt hlt
              · -- i is the previously last group: its count was checked nonzero
                have hhg : st.has_group = true := by
                  by_contra hng
                  have := inv2 (by simpa using hng)
                  omega
                have hcg : st.current_group < s.groups.length := by
                  have := inv1 hhg
                  omega
                have := hprev hhg hcg
                have hieq : i = st.current_group := by
                  have := inv1 hhg
                  omega
                subst hieq
                exact Nat.pos_of_ne_zero this
          · -- a header line appends no item
            have hcond : ¬ (is_blank_or_comment line = false ∧ line.getD 0 0 ≠ 91) := by
              intro hc
              exact hc.2 hbracket
            rw [if_neg hcond, List.append_nil]
        · exact Except.noConfusion hbind
    · -- item line
      rename_i hnotbracket
      cases hpi : parse_item_line s st pos line.length with
      | error e => rw [hpi] at h; simp [Except.map] at h
      | ok s2 =>
        rw [hpi] at h
        simp only [Except.map] at h
        cases h
        obtain ⟨hhg, hlt, hcg, hshape⟩ := parse_item_line_ok_shape hpi
        subst hshape
        have hcgeq : st.current_group + 1 = s.groups.length := inv1 hhg
        constructor
        · refine ⟨?_, ?_, ?_, ?_, ?_⟩
          · intro _
            simpa using hcgeq
          · intro hfalse
            rw [hhg] at hfalse
            cases hfalse
          · intro i hi
            simp only [List.length_set] at hi
            rcases eq_or_ne i st.current_group with rfl | hne
            · rw [List.get_eq_getElem, List.getElem_set_self (by simpa using hi),
                take_set_le _ _ _ _ (Nat.le_refl _)]
              exact inv3 _ hcg
            · have hile : i ≤ st.current_group := by omega
              rw [List.get_eq_getElem, List.getElem_set_ne (fun hx => hne hx.symm),
                take_set_le _ _ _ _ hile]
              exact inv3 i hi
          · rw [sumCounts_set_succ s.groups st.current_group hcg _ rfl]
            simp only [List.length_append, List.length_cons, List.length_nil]
            omega
          · intro i hi hnext
            simp only [List.length_set] at hi hnext
            have hne : i ≠ st.current_group := by omega
            rw [List.get_eq_getElem, List.getElem_set_ne (fun hx => hne hx.symm)]
            exact inv5 i hi hnext
        · rw [if_pos ⟨by simpa using hnotblank, by simpa using hnotbracket⟩]

theorem parse_lines_ok : ∀ (segs : List (List Nat)) (pos : Nat) (st : PState) (s : Session)
    {s' : Session} {st' : PState}, PartInv s st →
    parse_lines segs pos st s = .ok (s', st') →
    PartInv s' st' ∧
    s'.items = s.items ++ (item_lines_go segs pos).map (fun pl => Item.mk pl.1 pl.2.length) := by
  intro segs
  induction segs with
  | nil =>
    intro pos st s s' st' hinv h
    unfold parse_lines at h
    cases h
    exact ⟨hinv, by simp [item_lines_go]⟩
  | cons seg rest ih =>
    intro pos st s s' st' hinv h
    unfold parse_lines at h
    dsimp only at h
    split at h
    · exact Except.noConfusion h
    · cases hhl : handle_line s st (stripCR seg) pos with
      | error e => rw [hhl] at h; simp [Except.bind] at h
      | ok p =>
        rw [hhl] at h
        simp only [Except.bind] at h
        obtain ⟨hinv1, hitems1⟩ := handle_line_ok hinv hhl
        have hinv1' : PartInv p.1 { p.2 with line_no := p.2.line_no + 1 } := hinv1
        obtain ⟨hinv2, hitems2⟩ := ih (pos + seg.length + 1) _ _ hinv1' h
        refine ⟨hinv2, ?_⟩
        rw [hitems2, hitems1]
        have hgo : item_lines_go (seg :: rest) pos =
            (if is_blank_or_comment (stripCR seg) = false ∧ (stripCR seg).getD 0 0 ≠ 91
              then [(pos, stripCR seg)] else []) ++
            item_lines_go rest (pos + seg.length + 1) := rfl
        rw [hgo, List.map_append, ← List.append_assoc]
        congr 2
        by_cases hc : is_blank_or_comment (stripCR seg) = false ∧ (stripCR seg).getD 0 0 ≠ 91
        · rw [if_pos hc, if_pos hc]
          rfl
        · rw [if_neg hc, if_neg hc]
          rfl

/-- A successful `parse_session_buffer` run comes from a successful line walk
producing the same session, with the end-of-input checks passed. -/
theorem parse_session_buffer_ok_shape {s : Session} {s' : Session}
    (h : parse_session_buffer s = .ok s') :
    ∃ st', parse_lines (splitLines s.buffer) 0 ⟨1, false, 0⟩ s = .ok (s', st') ∧
      s'.groups.length ≠ 0 ∧
      (st'.has_group = true →
        ∀ hcg : st'.current_group < s'.groups.length,
          (s'.groups.get ⟨st'.current_group, hcg⟩).item_count ≠ 0) := by
  unfold parse_session_buffer at h
  cases hpl : parse_lines (splitLines s.buffer) 0 ⟨1, false, 0⟩ s with
  | error e => rw [hpl] at h; simp [Except.bind] at h
  | ok p =>
    rw [hpl] at h
    simp only [Except.bind] at h
    split at h
    · exact Except.noConfusion h
    · rename_i hlen0
      split at h
      · rename_i hhg
        split at h
        · rename_i hcg
          split at h
          · exact Except.noConfusion h
          · rename_i hcnt
            cases h
            refine ⟨p.2, by rw [← hpl], hlen0, fun _ hcg' => ?_⟩
            exact fun hz => hcnt (by exact hz)
        · exact Except.noConfusion h
      · rename_i hhg
        cases h
        refine ⟨p.2, by rw [← hpl], hlen0, fun hhg' _ => ?_⟩
        exact absurd hhg' (by simpa using hhg)

/-- The initial parse state and empty session satisfy the invariant. -/
theorem PartInv_init (buf : List Nat) : PartInv ⟨buf, [], []⟩ ⟨1, false, 0⟩ := by
  refine ⟨?_, fun _ => rfl, ?_, rfl, ?_⟩
  · intro hx; cases hx
  · intro i hi; simp at hi
  · intro i hi; simp at hi

/-- C3: on every successful parse, there is at least one group, every group
owns at least one item, each group's `item_start` is the sum of the counts of
the groups before it, and the counts sum to the total item count — i.e. the
`[item_start, item_start + item_count)` ranges partition `[0, item_count)` in
group order with no gaps or overlaps. -/
theorem c3_partition (buf : List Nat) (s' : Session)
    (h : parse_session_buffer ⟨buf, [], []⟩ = .ok s') :
    1 ≤ s'.groups.length ∧
    (∀ g ∈ s'.groups, 1 ≤ g.item_count) ∧
    (∀ i (hi : i < s'.groups.length),
      (s'.groups.get ⟨i, hi⟩).item_start = sumCounts (s'.groups.take i)) ∧
    sumCounts s'.groups = s'.items.length := by
  obtain ⟨st', hpl, hlen0, hlast⟩ := parse_session_buffer_ok_shape h
  obtain ⟨⟨inv1, inv2, inv3, inv4, inv5⟩, _⟩ := parse_lines_ok _ _ _ _ (PartInv_init buf) hpl
  have hhg : st'.has_group = true := by
    by_cases hx : st'.has_group
    · exact hx
    · exact absurd (inv2 (by simpa using hx)) hlen0
  have hc1 := inv1 hhg
  refine ⟨by omega, ?_, inv3, inv4⟩
  intro g hg
  rw [List.mem_iff_getElem] at hg
  obtain ⟨i, hi, rfl⟩ := hg
  rcases Nat.lt_or_ge (i + 1) s'.groups.length with hlt | hge
  · exact inv5 i hi hlt
  · have hieq : i = st'.current_group := by omega
    subst hieq
    exact Nat.pos_of_ne_zero (fun he => hlast hhg (by omega) he)

/-- C4: on every successful parse, the item list is exactly, in order, one
record per non-blank, non-comment, non-header input line, whose
`(offset, length)` slice of the buffer reproduces that line's bytes with
trailing `\n`/`\r` stripped, and every item has positive length. -/
theorem c4_items_roundtrip (buf : List Nat) (s' : Session)
    (h : parse_session_buffer ⟨buf, [], []⟩ = .ok s') :
    s'.items = (item_lines buf).map (fun pl => Item.mk pl.1 pl.2.length) ∧
    (∀ pl ∈ item_lines buf, (buf.drop pl.1).take pl.2.length = pl.2 ∧ 0 < pl.2.length) ∧
    (∀ it ∈ s'.items, 0 < it.length) := by
  obtain ⟨st', hpl, _, _⟩ := parse_session_buffer_ok_shape h
  obtain ⟨_, hitems⟩ := parse_lines_ok _ _ _ _ (PartInv_init buf) hpl
  have hslice := item_lines_go_slice buf (splitLines buf) 0 (splitLines_segsOK buf)
  have hmain : s'.items = (item_lines buf).map (fun pl => Item.mk pl.1 pl.2.length) := by
    rw [hitems]
    rfl
  refine ⟨hmain, fun pl hpl' => hslice pl hpl', ?_⟩
  intro it hit
  rw [hmain, List.mem_map] at hit
  obtain ⟨pl, hpl', rfl⟩ := hit
  exact (hslice pl hpl').2

/-- The buffer bytes of `"[A|5]\nhello\n"`, used as the C3/C4 witness input. -/
def c34buf : List Nat := [91, 65, 124, 53, 93, 10, 104, 101, 108, 108, 111, 10]

/-- C3 witness: the minimal session has one group and partitioned items. -/
theorem c3_witness :
    1 ≤ ((⟨c34buf, [⟨1, 1, 5, 0, 1⟩], [⟨6, 5⟩]⟩ : Session)).groups.length ∧
    sumCounts ((⟨c34buf, [⟨1, 1, 5, 0, 1⟩], [⟨6, 5⟩]⟩ : Session)).groups =
      ((⟨c34buf, [⟨1, 1, 5, 0, 1⟩], [⟨6, 5⟩]⟩ : Session)).items.length := by
  obtain ⟨h1, _, _, h4⟩ := c3_partition c34buf ⟨c34buf, [⟨1, 1, 5, 0, 1⟩], [⟨6, 5⟩]⟩ (by rfl)
  exact ⟨h1, h4⟩

/-- C4 witness: the single item of the minimal session is line `"hello"`. -/
theorem c4_witness :
    ((⟨c34buf, [⟨1, 1, 5, 0, 1⟩], [⟨6, 5⟩]⟩ : Session)).items =
      (item_lines c34buf).map (fun pl => Item.mk pl.1 pl.2.length) :=
  (c4_items_roundtrip c34buf ⟨c34buf, [⟨1, 1, 5, 0, 1⟩], [⟨6, 5⟩]⟩ (by rfl)).1

/-! ## Helper lemmas: header grammar (C6) -/

theorem trim_right_aux_le (l : List Nat) (start : Nat) : ∀ e, trim_right_aux l start e ≤ e := by
  intro e
  induction e with
  | zero => exact Nat.le_refl _
  | succ n ih =>
    unfold trim_right_aux
    split
    · exact Nat.le_refl _
    · split
      · exact Nat.le_trans ih (by omega)
      · exact Nat.le_refl _

theorem trim_right_index_le (l : List Nat) (start : Nat) :
    trim_right_index l start ≤ l.length := trim_right_aux_le l start l.length

theorem strlenB_le (l : List Nat) : strlenB l ≤ l.length := by
  unfold strlenB
  induction l with
  | nil => simp
  | cons b rest ih =>
    rw [List.takeWhile_cons]
    split
    · simpa using ih
    · simp

theorem parse_seconds_value_nil : parse_seconds_value [] = none := rfl

theorem find_pipe_aux_some {l : List Nat} : ∀ (k s p : Nat),
    find_pipe_aux l (List.range' s k) = some p →
    s ≤ p ∧ p < s + k ∧ l.getD p 0 = 124 ∧ ∀ i, s ≤ i → i < p → l.getD i 0 ≠ 124 := by
  intro k
  induction k with
  | zero => intro s p h; simp [find_pipe_aux, List.range'] at h
  | succ n ih =>
    intro s p h
    rw [List.range'_succ] at h
    unfold find_pipe_aux at h
    split at h
    · rename_i hs
      cases h
      exact ⟨Nat.le_refl _, by omega, hs, fun i h1 h2 => by omega⟩
    · rename_i hs
      obtain ⟨h1, h2, h3, h4⟩ := ih (s + 1) p h
      refine ⟨by omega, by omega, h3, ?_⟩
      intro i hi1 hi2
      rcases Nat.eq_or_lt_of_le hi1 with rfl | hlt
      · exact hs
      · exact h4 i hlt hi2

theorem find_pipe_aux_intro {l : List Nat} : ∀ (k s p : Nat),
    s ≤ p → p < s + k → l.getD p 0 = 124 → (∀ i, s ≤ i → i < p → l.getD i 0 ≠ 124) →
    find_pipe_aux l (List.range' s k) = some p := by
  intro k
  induction k with
  | zero => intro s p h1 h2; omega
  | succ n ih =>
    intro s p h1 h2 h3 h4
    rw [List.range'_succ]
    unfold find_pipe_aux
    rcases Nat.eq_or_lt_of_le h1 with rfl | hlt
    · rw [if_pos h3]
    · rw [if_neg (h4 s (Nat.le_refl _) hlt)]
      exact ih (s + 1) p hlt (by omega) h3 (fun i hi1 hi2 => h4 i (by omega) hi2)

/-- Splitting a line that passes the bracket checks at its first pipe. -/
theorem header_decomp {l : List Nat} (h3 : 3 ≤ l.length)
    (h0 : l.getD 0 0 = 91) (hlast : l.getD (l.length - 1) 0 = 93)
    {p : Nat} (hp1 : 1 ≤ p) (hp2 : p + 1 < l.length) (hpv : l.getD p 0 = 124) :
    l = 91 :: ((l.drop 1).take (p - 1) ++
      (124 :: ((l.drop (p + 1)).take (l.length - 1 - (p + 1)) ++ [93]))) := by
  have hp : p < l.length := by omega
  have hlen1 : l.length - 1 < l.length := by omega
  have h1 : l.take 1 = [91] := by
    cases l with
    | nil => simp at h3
    | cons b rest =>
      simp only [List.getD_cons_zero] at h0
      simp [h0]
  have ht : l.take p = l.take 1 ++ (l.drop 1).take (p - 1) := by
    have harr : p = 1 + (p - 1) := by omega
    conv_lhs => rw [harr, List.take_add]
  have hdrop : l.drop p = 124 :: l.drop (p + 1) := by
    rw [List.drop_eq_getElem_cons hp]
    congr 1
    rw [← List.getD_eq_getElem l 0 hp]
    exact hpv
  have hfin : List.drop (l.length - 1) l = [93] := by
    rw [List.drop_eq_getElem_cons hlen1]
    have harr : l.length - 1 + 1 = l.length := by omega
    rw [harr, List.drop_length]
    have : l[l.length - 1] = 93 := by
      rw [← List.getD_eq_getElem l 0 hlen1]
      exact hlast
    rw [this]
  have hdrop2 : l.drop (p + 1) =
      (l.drop (p + 1)).take (l.length - 1 - (p + 1)) ++ [93] := by
    conv_lhs => rw [← List.take_append_drop (l.length - 1 - (p + 1)) (l.drop (p + 1))]
    congr 1
    rw [List.drop_drop]
    have harr : p + 1 + (l.length - 1 - (p + 1)) = l.length - 1 := by omega
    rw [harr, hfin]
  conv_lhs => rw [← List.take_append_drop p l, ht, h1, hdrop]
  conv_lhs => rw [hdrop2]
  simp

/-- Trim a slice the way the parser does: drop up to the left-trim index,
take up to the right-trim index. -/
def trimmedSlice (l : List Nat) : List Nat :=
  (l.drop (trim_left_index l)).take
    (trim_right_index l (trim_left_index l) - trim_left_index l)

/-- The value `strtoul` produces for a sign and a digit run (`-` wraps
modulo `2^64`). -/
def secondsValOf (sgn ds : List Nat) : Nat :=
  if sgn = [45] then (U64 - digitsVal ds) % U64 else digitsVal ds

/-- The seconds field acceptance as the amended claim states it (refinement
side): the prefix of the trimmed field up to the first NUL byte — the C
string `strtoul` sees — is an optional single sign (`+` or `-`) followed by
a nonempty digit run and nothing else, whose converted value lies in
`[1, MAX_GROUP_SECONDS]` without overflowing an `unsigned long`. -/
def specSecondsOK (t : List Nat) : Prop :=
  ∃ sgn ds : List Nat,
    (sgn = [] ∨ sgn = [43] ∨ sgn = [45]) ∧
    ds ≠ [] ∧
    (∀ b ∈ ds, isdigitB b = true) ∧
    t.takeWhile (fun b => b ≠ 0) = sgn ++ ds ∧
    digitsVal ds ≤ U64 - 1 ∧
    1 ≤ secondsValOf sgn ds ∧ secondsValOf sgn ds ≤ MAX_GROUP_SECONDS

theorem takeWhile_all_eq {p : Nat → Bool} :
    ∀ l : List Nat, (∀ b ∈ l, p b = true) →
    l.takeWhile p = l ∧ l.dropWhile p = [] := by
  intro l
  induction l with
  | nil => intro _; exact ⟨rfl, rfl⟩
  | cons b rest ih =>
    intro h
    have hb := h b (by simp)
    obtain ⟨ih1, ih2⟩ := ih (fun x hx => h x (by simp [hx]))
    rw [List.takeWhile_cons, List.dropWhile_cons]
    rw [hb]
    simp only [if_true]
    exact ⟨by rw [ih1], ih2⟩

/-- The spec-side seconds acceptance coincides with the embedded
`parse_seconds_value`. -/
theorem specSecondsOK_iff (t : List Nat) :
    specSecondsOK t ↔ ∃ v, parse_seconds_value t = some v := by
  constructor
  · rintro ⟨sgn, ds, hsgn, hne, hdig, hcs, hbound, h1, h2⟩
    obtain ⟨htw, hdw⟩ := takeWhile_all_eq ds hdig
    have hnb : ¬ (U64 - 1 < digitsVal ds) := Nat.not_lt.mpr hbound
    obtain ⟨d, ds', rfl⟩ : ∃ d ds', ds = d :: ds' := by
      cases ds with
      | nil => exact absurd rfl hne
      | cons d ds' => exact ⟨d, ds', rfl⟩
    have hd48 : 48 ≤ d ∧ d ≤ 57 := by
      simpa [isdigitB, Bool.and_eq_true, decide_eq_true_eq] using hdig d (by simp)
    rcases hsgn with rfl | rfl | rfl
    · rw [List.nil_append] at hcs
      refine ⟨digitsVal (d :: ds'), ?_⟩
      have h1' : 1 ≤ digitsVal (d :: ds') := by simpa [secondsValOf] using h1
      have h2' : digitsVal (d :: ds') ≤ MAX_GROUP_SECONDS := by
        simpa [secondsValOf] using h2
      have hd43 : ¬ (d = 43) := by omega
      have hd45 : ¬ (d = 45) := by omega
      simp only [parse_seconds_value]
      rw [hcs]
      simp [hd43, hd45, htw, hdw, hne, hnb, hdig, hbound,
        Nat.one_le_iff_ne_zero.mp h1', Nat.not_lt.mpr h1', Nat.not_lt.mpr h2']
    · refine ⟨digitsVal (d :: ds'), ?_⟩
      have h1' : 1 ≤ digitsVal (d :: ds') := by simpa [secondsValOf] using h1
      have h2' : digitsVal (d :: ds') ≤ MAX_GROUP_SECONDS := by
        simpa [secondsValOf] using h2
      have hcs' : t.takeWhile (fun b => b ≠ 0) = 43 :: (d :: ds') := hcs
      simp only [parse_seconds_value]
      rw [hcs']
      simp [htw, hdw, hne, hnb, Nat.not_lt.mpr h1', Nat.not_lt.mpr h2']
    · refine ⟨(U64 - digitsVal (d :: ds')) % U64, ?_⟩
      have h1' : 1 ≤ (U64 - digitsVal (d :: ds')) % U64 := by
        simpa [secondsValOf] using h1
      have h2' : (U64 - digitsVal (d :: ds')) % U64 ≤ MAX_GROUP_SECONDS := by
        simpa [secondsValOf] using h2
      have hcs' : t.takeWhile (fun b => b ≠ 0) = 45 :: (d :: ds') := hcs
      simp only [parse_seconds_value]
      rw [hcs']
      simp [htw, hdw, hne, hnb, Nat.not_lt.mpr h1', Nat.not_lt.mpr h2']
  · rintro ⟨v, hv⟩
    simp only [parse_seconds_value] at hv
    by_cases hsign : ((t.takeWhile (fun b => b ≠ 0)).headD 0 = 43 ∨ (t.takeWhile (fun b => b ≠ 0)).headD 0 = 45)
    · rw [if_pos hsign] at hv
      obtain ⟨c, r, hcr⟩ : ∃ c r, t.takeWhile (fun b => b ≠ 0) = c :: r := by
        cases hc : t.takeWhile (fun b => b ≠ 0) with
        | nil =>
          rw [hc] at hsign
          simp only [List.headD_nil] at hsign
          omega
        | cons c r => exact ⟨c, r, rfl⟩
      rw [hcr] at hsign hv
      simp only [List.headD_cons, List.tail_cons] at hsign hv
      rcases hsign with rfl | rfl
      · rw [decide_eq_false (show ¬ ((43 : Nat) = 45) by decide)] at hv
        rw [if_neg (show ¬ ((false : Bool) = true) by decide)] at hv
        split at hv
        next hds => exact absurd hv (by simp)
        next hds =>
          split at hv
          next hrest => exact absurd hv (by simp)
          next hrest =>
            have hr : r.takeWhile isdigitB ++ r.dropWhile isdigitB = r :=
              List.takeWhile_append_dropWhile isdigitB r
            rw [not_not.mp hrest, List.append_nil] at hr
            split at hv
            next hgt => exact absurd hv (by simp)
            next hgt =>
              split at hv
              next hu => exact absurd hv (by simp)
              next hu =>
                simp only [Bool.or_eq_true, decide_eq_true_eq, not_or] at hu
                refine ⟨[43], r.takeWhile isdigitB, Or.inr (Or.inl rfl), hds,
                  fun b hb => List.mem_takeWhile_imp hb, by rw [hcr, hr]; rfl,
                  by omega, ?_, ?_⟩
                · rw [show secondsValOf [43] (r.takeWhile isdigitB) =
                      digitsVal (r.takeWhile isdigitB) from by simp [secondsValOf]]
                  omega
                · rw [show secondsValOf [43] (r.takeWhile isdigitB) =
                      digitsVal (r.takeWhile isdigitB) from by simp [secondsValOf]]
                  omega
      · rw [decide_eq_true (show (45 : Nat) = 45 from rfl)] at hv
        rw [if_pos (show (true : Bool) = true from rfl)] at hv
        split at hv
        next hds => exact absurd hv (by simp)
        next hds =>
          split at hv
          next hrest => exact absurd hv (by simp)
          next hrest =>
            have hr : r.takeWhile isdigitB ++ r.dropWhile isdigitB = r :=
              List.takeWhile_append_dropWhile isdigitB r
            rw [not_not.mp hrest, List.append_nil] at hr
            split at hv
            next hgt => exact absurd hv (by simp)
            next hgt =>
              split at hv
              next hu => exact absurd hv (by simp)
              next hu =>
                simp only [Bool.or_eq_true, decide_eq_true_eq, not_or] at hu
                refine ⟨[45], r.takeWhile isdigitB, Or.inr (Or.inr rfl), hds,
                  fun b hb => List.mem_takeWhile_imp hb, by rw [hcr, hr]; rfl,
                  by omega, ?_, ?_⟩
                · rw [show secondsValOf [45] (r.takeWhile isdigitB) =
                      (U64 - digitsVal (r.takeWhile isdigitB)) % U64 from by
                    simp [secondsValOf]]
                  omega
                · rw [show secondsValOf [45] (r.takeWhile isdigitB) =
                      (U64 - digitsVal (r.takeWhile isdigitB)) % U64 from by
                    simp [secondsValOf]]
                  omega
    · rw [if_neg hsign] at hv
      have hng : ¬ ((t.takeWhile (fun b => b ≠ 0)).headD 0 = 45) := fun h45 => hsign (Or.inr h45)
      rw [decide_eq_false hng] at hv
      rw [if_neg (show ¬ ((false : Bool) = true) by decide)] at hv
      split at hv
      next hds => exact absurd hv (by simp)
      next hds =>
        split at hv
        next hrest => exact absurd hv (by simp)
        next hrest =>
          have hr : (t.takeWhile (fun b => b ≠ 0)).takeWhile isdigitB ++ (t.takeWhile (fun b => b ≠ 0)).dropWhile isdigitB = (t.takeWhile (fun b => b ≠ 0)) :=
            List.takeWhile_append_dropWhile isdigitB (t.takeWhile (fun b => b ≠ 0))
          rw [not_not.mp hrest, List.append_nil] at hr
          split at hv
          next hgt => exact absurd hv (by simp)
          next hgt =>
            split at hv
            next hu => exact absurd hv (by simp)
            next hu =>
              simp only [Bool.or_eq_true, decide_eq_true_eq, not_or] at hu
              refine ⟨[], (t.takeWhile (fun b => b ≠ 0)).takeWhile isdigitB,
                Or.inl rfl, hds, fun b hb => List.mem_takeWhile_imp hb,
                by rw [List.nil_append]; exact hr.symm, by omega, ?_, ?_⟩
              · rw [show secondsValOf [] ((t.takeWhile (fun b => b ≠ 0)).takeWhile isdigitB) =
                    digitsVal ((t.takeWhile (fun b => b ≠ 0)).takeWhile isdigitB) from by simp [secondsValOf]]
                omega
              · rw [show secondsValOf [] ((t.takeWhile (fun b => b ≠ 0)).takeWhile isdigitB) =
                    digitsVal ((t.takeWhile (fun b => b ≠ 0)).takeWhile isdigitB) from by simp [secondsValOf]]
                omega

/-- The header grammar as the claim states it (refinement side, following the
spec's words): `[` name `|` seconds `]` with name and seconds individually
trimmed of surrounding whitespace, name non-empty after trimming, and the
seconds text parsing under C `strtoul` semantics: `strtoul` reads the trimmed
bytes as a C string, so it stops at the first embedded NUL; up to there the
text must be an optional single `+`/`-` sign followed by a non-empty digit
run and nothing else, the digit value must fit in `unsigned long` (else
`ERANGE`), a `-` sign wraps the value modulo `2^64`, and the resulting value
must lie in `[1, 86400]`.  Bytes after an embedded NUL are invisible to the
check, so e.g. the seconds field `5\x006` is accepted with value 5.
`name` is pipe-free, so the decomposition is the one at the line's
first `|`. -/
def specHeaderAccepts (l : List Nat) : Prop :=
  ∃ name secs : List Nat,
    l = 91 :: (name ++ (124 :: (secs ++ [93]))) ∧
    124 ∉ name ∧
    trimmedSlice name ≠ [] ∧
    specSecondsOK (trimmedSlice secs)

/-- C6 (amended): a header line is accepted (given free group capacity and an
in-bound line length) iff it matches the `[name|seconds]` grammar with
trimmed non-empty name and a seconds field valid under `strtoul` C-string
semantics (sign + digits + nothing else before the first NUL, value in
`[1, 86400]` after the `-` wraparound); every rejection carries the line's
1-based number. -/
theorem c6_header_acceptance (s : Session) (line : List Nat) (line_start line_no : Nat)
    (hcap : s.groups.length < MAX_GROUPS) (hline : line.length ≤ MAX_LINE_LEN) :
    ((∃ s', parse_header_line s line line_start line_no = .ok s') ↔ specHeaderAccepts line) ∧
    (∀ e, parse_header_line s line line_start line_no = .error e → e.line = some line_no) := by
  constructor
  · constructor
    · rintro ⟨s', h⟩
      simp only [parse_header_line] at h
      split at h
      · exact Except.noConfusion h
      · rename_i hc1
        simp only [Bool.or_eq_true, decide_eq_true_eq, not_or, Nat.not_lt, ne_eq,
          not_not] at hc1
        obtain ⟨⟨h3, h0⟩, hlast⟩ := hc1
        split at h
        · exact Except.noConfusion h
        · rename_i p heq
          unfold find_pipe_index at heq
          obtain ⟨hp1, hpk, hpv, hfirst⟩ := find_pipe_aux_some (line.length - 2) 1 p heq
          have hp2 : p + 1 < line.length := by omega
          split at h
          · exact Except.noConfusion h
          · rename_i hname
            split at h
            · exact Except.noConfusion h
            · rename_i hsec
              split at h
              · exact Except.noConfusion h
              · rename_i v heq2
                split at h
                · exact Except.noConfusion h
                · split at h
                  · exact Except.noConfusion h
                  · refine ⟨(line.drop 1).take (p - 1),
                      (line.drop (p + 1)).take (line.length - 1 - (p + 1)),
                      header_decomp h3 h0 hlast hp1 hp2 hpv, ?_, ?_,
                      (specSecondsOK_iff _).mpr ⟨v, heq2⟩⟩
                    · intro hx
                      rw [List.mem_iff_getElem] at hx
                      obtain ⟨j, hj, hval⟩ := hx
                      have hjlen : j < p - 1 ∧ j < line.length - 1 := by
                        simpa using hj
                      have hbound : 1 + j < line.length := by omega
                      have hval2 : line.getD (1 + j) 0 = 124 := by
                        rw [List.getD_eq_getElem _ _ hbound]
                        rw [← hval, List.getElem_take, List.getElem_drop]
                      exact hfirst (1 + j) (by omega) (by omega) hval2
                    · have hle := trim_right_index_le ((line.drop 1).take (p - 1))
                        (trim_left_index ((line.drop 1).take (p - 1)))
                      rw [← List.length_pos, trimmedSlice, List.length_take,
                        List.length_drop]
                      omega
    · rintro ⟨name, secs, hdec, hnp, hnt, hsok⟩
      obtain ⟨v, hv⟩ := (specSecondsOK_iff _).mp hsok
      subst hdec
      have hA : (91 : Nat) :: (name ++ (124 :: (secs ++ [93]))) =
          ((91 : Nat) :: name) ++ (124 :: (secs ++ [93])) := by simp
      have hlength : ((91 : Nat) :: (name ++ (124 :: (secs ++ [93])))).length =
          name.length + secs.length + 3 := by
        simp
        omega
      have hgetD0 : ((91 : Nat) :: (name ++ (124 :: (secs ++ [93])))).getD 0 0 = 91 := rfl
      have hgetDlast : ((91 : Nat) :: (name ++ (124 :: (secs ++ [93])))).getD
          (((91 : Nat) :: (name ++ (124 :: (secs ++ [93])))).length - 1) 0 = 93 := by
        have hB : (91 : Nat) :: (name ++ (124 :: (secs ++ [93]))) =
            ((91 : Nat) :: (name ++ (124 :: secs))) ++ [93] := by simp
        have hBlen : ((91 : Nat) :: (name ++ (124 :: secs))).length =
            name.length + secs.length + 2 := by
          simp
          omega
        rw [hlength]
        conv_lhs => rw [hB]
        rw [List.getD_append_right _ _ _ _ (by omega)]
        rw [hBlen]
        have : name.length + secs.length + 3 - 1 - (name.length + secs.length + 2) = 0 := by
          omega
        rw [this]
        rfl
      have hpipe : ((91 : Nat) :: (name ++ (124 :: (secs ++ [93])))).getD
          (name.length + 1) 0 = 124 := by
        conv_lhs => rw [hA]
        rw [List.getD_append_right _ _ _ _ (by simp)]
        simp
      have hfirst : ∀ i, 1 ≤ i → i < name.length + 1 →
          ((91 : Nat) :: (name ++ (124 :: (secs ++ [93])))).getD i 0 ≠ 124 := by
        intro i hi1 hi2
        conv_lhs => rw [hA]
        rw [List.getD_append _ _ _ _ (by simp; omega)]
        obtain ⟨j, rfl⟩ : ∃ j, i = j + 1 := ⟨i - 1, by omega⟩
        rw [List.getD_cons_succ]
        have hjl : j < name.length := by omega
        rw [List.getD_eq_getElem _ _ hjl]
        intro hx
        exact hnp (hx ▸ List.getElem_mem hjl)
      have hfind : find_pipe_index ((91 : Nat) :: (name ++ (124 :: (secs ++ [93])))) =
          some (name.length + 1) := by
        unfold find_pipe_index
        refine find_pipe_aux_intro _ 1 _ (by omega) ?_ hpipe hfirst
        rw [hlength]
        omega
      have hname_slice : (((91 : Nat) :: (name ++ (124 :: (secs ++ [93])))).drop 1).take
          (name.length + 1 - 1) = name := by
        have : name.length + 1 - 1 = name.length := by omega
        rw [this]
        show (name ++ (124 :: (secs ++ [93]))).take name.length = name
        exact List.take_left name _
      have hsecs_slice : (((91 : Nat) :: (name ++ (124 :: (secs ++ [93])))).drop
          (name.length + 1 + 1)).take
          (((91 : Nat) :: (name ++ (124 :: (secs ++ [93])))).length - 1 -
            (name.length + 1 + 1)) = secs := by
        have hC : (91 : Nat) :: (name ++ (124 :: (secs ++ [93]))) =
            ((91 : Nat) :: (name ++ [124])) ++ (secs ++ [93]) := by simp
        have hClen : name.length + 1 + 1 = ((91 : Nat) :: (name ++ [124])).length := by
          simp
        rw [hlength]
        have harith : name.length + secs.length + 3 - 1 - (name.length + 1 + 1) =
            secs.length := by omega
        rw [harith]
        conv_lhs => rw [hC, hClen, List.drop_left]
        exact List.take_left secs _
      have hns : trim_left_index name < trim_right_index name (trim_left_index name) := by
        by_contra hge
        apply hnt
        unfold trimmedSlice
        have : trim_right_index name (trim_left_index name) - trim_left_index name = 0 := by
          omega
        rw [this, List.take_zero]
      have hss : trim_left_index secs < trim_right_index secs (trim_left_index secs) := by
        by_contra hge
        have : trimmedSlice secs = [] := by
          unfold trimmedSlice
          have : trim_right_index secs (trim_left_index secs) - trim_left_index secs = 0 := by
            omega
          rw [this, List.take_zero]
        rw [this, parse_seconds_value_nil] at hv
        exact Option.noConfusion hv
      have hred : parse_header_line s ((91 : Nat) :: (name ++ (124 :: (secs ++ [93]))))
          line_start line_no = .ok { s with groups := s.groups ++
            [⟨line_start + 1 + trim_left_index name,
              strlenB ((name.drop (trim_left_index name)).take
                (trim_right_index name (trim_left_index name) - trim_left_index name)),
              v, s.items.length, 0⟩] } := by
        simp only [parse_header_line]
        rw [if_neg (by
          simp only [Bool.or_eq_true, decide_eq_true_eq, not_or, Nat.not_lt, ne_eq, not_not]
          exact ⟨⟨by rw [hlength]; omega, hgetD0⟩, hgetDlast⟩)]
        rw [hfind]
        dsimp only
        rw [hname_slice, hsecs_slice]
        rw [if_neg (by omega)]
        rw [if_neg (by omega)]
        have hv' : parse_seconds_value ((secs.drop (trim_left_index secs)).take
            (trim_right_index secs (trim_left_index secs) - trim_left_index secs)) =
            some v := hv
        rw [hv']
        dsimp only
        rw [if_neg (by omega)]
        rw [if_neg (by
          have h1 := strlenB_le ((name.drop (trim_left_index name)).take
            (trim_right_index name (trim_left_index name) - trim_left_index name))
          have h2 : ((name.drop (trim_left_index name)).take
              (trim_right_index name (trim_left_index name) - trim_left_index name)).length ≤
              name.length := by
            rw [List.length_take, List.length_drop]
            omega
          have h3 : name.length ≤ MAX_LINE_LEN := by
            rw [hlength] at hline
            omega
          omega)]
      exact ⟨_, hred⟩
  · intro e he
    simp only [parse_header_line] at he
    split at he
    · injection he with h2; rw [← h2]
    · split at he
      · injection he with h2; rw [← h2]
      · split at he
        · injection he with h2; rw [← h2]
        · split at he
          · injection he with h2; rw [← h2]
          · split at he
            · injection he with h2; rw [← h2]
            · split at he
              · injection he with h2; rw [← h2]
              · split at he
                · injection he with h2; rw [← h2]
                · exact Except.noConfusion he

/-- C6 witness: the header `"[A|5]"` on an empty session. -/
theorem c6_witness :
    (∃ s', parse_header_line ⟨[], [], []⟩ [91, 65, 124, 53, 93] 0 1 = .ok s') ↔
      specHeaderAccepts [91, 65, 124, 53, 93] :=
  (c6_header_acceptance ⟨[], [], []⟩ [91, 65, 124, 53, 93] 0 1 (by decide) (by decide)).1

/-- C6: counterexample to the unamended reading.  The line `[A|5\x006]`
(bytes `91 65 124 53 0 54 93`) is accepted by `parse_header_line` with
seconds 5, because `strtoul` stops at the embedded NUL and the
`*endptr == '\0'` check passes there; yet the trimmed seconds field
`53 0 54` is not a plain digit run, so under the original "parses as an
unsigned integer" reading the line would be rejected. -/
theorem c6_nul_seconds_accepted :
    parse_header_line ⟨[91, 65, 124, 53, 0, 54, 93], [], []⟩
        [91, 65, 124, 53, 0, 54, 93] 0 1 =
      .ok ⟨[91, 65, 124, 53, 0, 54, 93], [⟨1, 1, 5, 0, 0⟩], []⟩ ∧
    ¬ (∀ b ∈ trimmedSlice [53, 0, 54], isdigitB b = true) := by
  exact ⟨rfl, by decide⟩

/-! ## Helper definitions and lemmas: runner traces (C2, C9, C10) -/

def isPromptEv : Ev → Bool
  | .prompt _ _ => true
  | _ => false

/-- Number of prompt-shown events in a trace. -/
def countPrompts (tr : List Ev) : Nat := tr.countP isPromptEv

theorem countPrompts_append (t1 t2 : List Ev) :
    countPrompts (t1 ++ t2) = countPrompts t1 + countPrompts t2 := by
  unfold countPrompts
  exact List.countP_append _ _ _

theorem init_item_order_trace (s : Session) (m : Mach) (gi : Nat) :
    (init_item_order s m gi).2.trace = m.trace := by
  unfold init_item_order
  split
  · dsimp only
    split
    · rfl
    · split
      · rfl
      · rfl
  · rfl

theorem update_group_timer_trace (s : Session) (m : Mach) :
    (update_group_timer s m).2.trace = m.trace := by
  unfold update_group_timer
  split
  · dsimp only
    split
    · rfl
    · split
      · rfl
      · rfl
  · rfl

theorem select_next_item_trace (s : Session) (m : Mach) :
    (select_next_item s m).2.trace = m.trace := by
  unfold select_next_item
  split
  · dsimp only
    split
    · rfl
    · split
      · rfl
      · rfl
  · rfl

theorem read_key_trace (m : Mach) (r : Nat) :
    (read_key m r).2.2.trace = m.trace := by
  unfold read_key
  split
  · rfl
  · dsimp only
    split
    · rfl
    · rfl
    · rfl

theorem select_next_group_trace (s : Session) (m : Mach) :
    ∃ Δ, (select_next_group s m).2.trace = m.trace ++ Δ ∧
      ∀ e ∈ Δ, e = Ev.simple "shuffle" "groups" := by
  unfold select_next_group
  split
  · exact ⟨[], by simp, by simp⟩
  · dsimp only
    by_cases h1 : m.rt.order_pos ≥ s.groups.length
    · rw [if_pos h1]
      cases hsh : rng_shuffle_groups m.rng m.group_order s.groups.length with
      | none =>
        simp only [hsh]
        split
        next _ => exact ⟨[], by simp, by simp⟩
        next hne =>
          have hne2 : (-1 : Int) ≠ 0 := by decide
          exact absurd hne2 hne
      | some sg =>
        simp only [hsh, log_simple]
        split
        next hne => exact absurd rfl hne
        next _ =>
          try dsimp only
          split
          · exact ⟨[Ev.simple "shuffle" "groups"], rfl, by simp⟩
          · exact ⟨[Ev.simple "shuffle" "groups"], rfl, by simp⟩
    · rw [if_neg h1]
      split
      next hne => exact absurd rfl hne
      next _ =>
        try dsimp only
        split
        · exact ⟨[], by simp, by simp⟩
        · exact ⟨[], by simp, by simp⟩

theorem advance_branch_trace (s : Session) (m : Mach) (gi count : Nat) (due : Bool) :
    ∃ Δ, (advance_branch s m gi count due).2.trace = m.trace ++ Δ ∧
      countPrompts Δ = 0 ∧
      (∀ t g, Ev.logGroup t g ∈ Δ → t = "group" ∧ due = true) := by
  unfold advance_branch
  cases due with
  | true =>
    rw [if_pos rfl]
    dsimp only
    split
    · refine ⟨[], ?_, rfl, by simp⟩
      show (init_item_order s m gi).2.trace = _
      rw [init_item_order_trace, List.append_nil]
    · split
      · refine ⟨[], ?_, rfl, by simp⟩
        show (init_item_order s m gi).2.trace = _
        rw [init_item_order_trace, List.append_nil]
      · split
        · refine ⟨[], ?_, rfl, by simp⟩
          show (update_group_timer s _).2.trace = _
          rw [update_group_timer_trace]
          show (init_item_order s m gi).2.trace = _
          rw [init_item_order_trace, List.append_nil]
        · unfold log_group
          split
          · refine ⟨[], ?_, rfl, by simp⟩
            show (update_group_timer s _).2.trace = _
            rw [update_group_timer_trace]
            show (init_item_order s m gi).2.trace = _
            rw [init_item_order_trace, List.append_nil]
          · refine ⟨[Ev.logGroup "group" gi], ?_, rfl, ?_⟩
            · show (update_group_timer s _).2.trace ++ _ = _
              rw [update_group_timer_trace]
              show (init_item_order s m gi).2.trace ++ _ = _
              rw [init_item_order_trace]
            · intro t g hm
              simp only [List.mem_singleton] at hm
              cases hm
              exact ⟨rfl, rfl⟩
  | false =>
    rw [if_neg (by simp)]
    dsimp only
    split
    · split
      · exact ⟨[], by simp, rfl, by simp⟩
      · unfold log_shuffle
        split
        · exact ⟨[], by simp, rfl, by simp⟩
        · exact ⟨[Ev.shuffleItems gi], rfl, rfl, by simp⟩
    · exact ⟨[], by simp, rfl, by simp⟩

theorem log_prompt_trace (s : Session) (m : Mach) (gi ii : Nat) :
    ∃ Δ, (log_prompt s m gi ii).2.trace = m.trace ++ Δ ∧
      ((log_prompt s m gi ii).1 = 0 → 0 < countPrompts Δ) ∧
      (∀ t g, Ev.logGroup t g ∉ Δ) := by
  unfold log_prompt
  split
  · refine ⟨[], by simp, ?_, by simp⟩
    intro hc
    exact absurd (show (-1 : Int) = 0 from hc) (by decide)
  · split
    · refine ⟨[], by simp, ?_, by simp⟩
      intro hc
      exact absurd (show (-1 : Int) = 0 from hc) (by decide)
    · split
      · refine ⟨[], by simp, ?_, by simp⟩
        intro hc
        exact absurd (show (-1 : Int) = 0 from hc) (by decide)
      · split
        · refine ⟨[], by simp, ?_, by simp⟩
          intro hc
          exact absurd (show (-1 : Int) = 0 from hc) (by decide)
        · dsimp only
          split
          · refine ⟨[], by simp, ?_, by simp⟩
            intro hc
            exact absurd (show (-1 : Int) = 0 from hc) (by decide)
          · split
            · refine ⟨[], by simp, ?_, by simp⟩
              intro hc
              exact absurd (show (-1 : Int) = 0 from hc) (by decide)
            · exact ⟨[Ev.prompt gi ii], rfl, fun _ => Nat.zero_lt_one, by simp⟩

theorem advance_finish_trace (s : Session) (gi : Nat) (br : Int × Mach) :
    ∃ Δ, (advance_finish s gi br).2.trace = br.2.trace ++ Δ ∧
      ((advance_finish s gi br).1 = 0 → 0 < countPrompts Δ) ∧
      (∀ t g, Ev.logGroup t g ∉ Δ) := by
  unfold advance_finish
  split
  · refine ⟨[], by simp, ?_, by simp⟩
    intro hc
    exact absurd (show (-1 : Int) = 0 from hc) (by decide)
  · dsimp only
    split
    · refine ⟨[], ?_, ?_, by simp⟩
      · show (select_next_item s br.2).2.trace = _
        rw [select_next_item_trace, List.append_nil]
      · intro hc
        exact absurd (show (-1 : Int) = 0 from hc) (by decide)
    · split
      · refine ⟨[], ?_, ?_, by simp⟩
        · show (select_next_item s br.2).2.trace = _
          rw [select_next_item_trace, List.append_nil]
        · intro hc
          exact absurd (show (-1 : Int) = 0 from hc) (by decide)
      · obtain ⟨Δp, hp, hpc, hpg⟩ := log_prompt_trace s (select_next_item s br.2).2 gi
          (select_next_item s br.2).2.rt.item_index
        split
        next hne =>
          refine ⟨Δp, ?_, ?_, hpg⟩
          · rw [hp, select_next_item_trace]
          · intro hc
            exact absurd (show (-1 : Int) = 0 from hc) (by decide)
        next hne =>
          refine ⟨Δp, ?_, ?_, hpg⟩
          · rw [hp, select_next_item_trace]
          · intro _
            exact hpc (by omega)

theorem advance_prompt_trace (s : Session) (m : Mach) (due : Bool) :
    ∃ Δ, (advance_prompt s m due).2.trace = m.trace ++ Δ ∧
      ((advance_prompt s m due).1 = 0 → 0 < countPrompts Δ) ∧
      (∀ t g, Ev.logGroup t g ∈ Δ → t = "group" ∧ due = true) := by
  unfold advance_prompt
  split
  case isFalse h =>
    refine ⟨[], by simp, ?_, by simp⟩
    intro hc
    exact absurd (show (-1 : Int) = 0 from hc) (by decide)
  case isTrue h =>
    dsimp only
    split
    · refine ⟨[], by simp, ?_, by simp⟩
      intro hc
      exact absurd (show (-1 : Int) = 0 from hc) (by decide)
    · split
      · refine ⟨[], by simp, ?_, by simp⟩
        intro hc
        exact absurd (show (-1 : Int) = 0 from hc) (by decide)
      · obtain ⟨Δb, hb, hbp, hbg⟩ := advance_branch_trace s m m.rt.group_index
          ((s.groups.get ⟨m.rt.group_index, h⟩).item_count) due
        obtain ⟨Δf, hf, hfp, hfg⟩ := advance_finish_trace s m.rt.group_index
          (advance_branch s m m.rt.group_index
            ((s.groups.get ⟨m.rt.group_index, h⟩).item_count) due)
        refine ⟨Δb ++ Δf, ?_, ?_, ?_⟩
        · rw [hf, hb, List.append_assoc]
        · intro hc
          rw [countPrompts_append]
          exact Nat.lt_of_lt_of_le (hfp hc) (Nat.le_add_left _ _)
        · intro t g hm
          rcases List.mem_append.mp hm with hmb | hmf
          · exact hbg t g hmb
          · exact absurd hmf (hfg t g)

theorem init_item_order_rt (s : Session) (m : Mach) (gi : Nat) :
    (init_item_order s m gi).2.rt = m.rt := by
  unfold init_item_order
  split
  · dsimp only
    split
    · rfl
    · split
      · rfl
      · rfl
  · rfl

theorem update_group_timer_pending (s : Session) (m : Mach) :
    (update_group_timer s m).2.rt.pending_switch = m.rt.pending_switch := by
  unfold update_group_timer
  split
  · dsimp only
    split
    · rfl
    · split
      · rfl
      · rfl
  · rfl

theorem select_next_item_pending (s : Session) (m : Mach) :
    (select_next_item s m).2.rt.pending_switch = m.rt.pending_switch := by
  unfold select_next_item
  split
  · dsimp only
    split
    · rfl
    · split
      · rfl
      · rfl
  · rfl

theorem log_prompt_rt (s : Session) (m : Mach) (gi ii : Nat) :
    (log_prompt s m gi ii).2.rt = m.rt := by
  unfold log_prompt
  split
  · rfl
  · split
    · rfl
    · split
      · rfl
      · split
        · rfl
        · dsimp only
          split
          · rfl
          · split
            · rfl
            · rfl

theorem select_next_group_pending (s : Session) (m : Mach) :
    (select_next_group s m).2.rt.pending_switch = m.rt.pending_switch := by
  unfold select_next_group
  split
  · rfl
  · dsimp only
    by_cases h1 : m.rt.order_pos ≥ s.groups.length
    · rw [if_pos h1]
      cases hsh : rng_shuffle_groups m.rng m.group_order s.groups.length with
      | none =>
        simp only [hsh]
        split
        next _ => rfl
        next hne =>
          have hne2 : (-1 : Int) ≠ 0 := by decide
          exact absurd hne2 hne
      | some sg =>
        simp only [hsh, log_simple]
        split
        next hne => exact absurd rfl hne
        next _ =>
          try dsimp only
          split
          · rfl
          · rfl
    · rw [if_neg h1]
      split
      next hne => exact absurd rfl hne
      next _ =>
        try dsimp only
        split
        · rfl
        · rfl

theorem advance_branch_pending (s : Session) (m : Mach) (gi count : Nat) (due : Bool) :
    (advance_branch s m gi count due).2.rt.pending_switch = m.rt.pending_switch := by
  unfold advance_branch
  cases due with
  | true =>
    rw [if_pos rfl]
    dsimp only
    split
    · show (init_item_order s m gi).2.rt.pending_switch = _
      rw [init_item_order_rt]
    · split
      · show (init_item_order s m gi).2.rt.pending_switch = _
        rw [init_item_order_rt]
      · split
        · show (update_group_timer s _).2.rt.pending_switch = _
          rw [update_group_timer_pending]
          show (init_item_order s m gi).2.rt.pending_switch = _
          rw [init_item_order_rt]
        · unfold log_group
          split
          · show (update_group_timer s _).2.rt.pending_switch = _
            rw [update_group_timer_pending]
            show (init_item_order s m gi).2.rt.pending_switch = _
            rw [init_item_order_rt]
          · show (update_group_timer s _).2.rt.pending_switch = _
            rw [update_group_timer_pending]
            show (init_item_order s m gi).2.rt.pending_switch = _
            rw [init_item_order_rt]
  | false =>
    rw [if_neg (by simp)]
    dsimp only
    split
    · split
      · rfl
      · unfold log_shuffle
        split
        · rfl
        · rfl
    · rfl

theorem advance_finish_pending (s : Session) (gi : Nat) (br : Int × Mach) :
    (advance_finish s gi br).2.rt.pending_switch = br.2.rt.pending_switch := by
  unfold advance_finish
  split
  · rfl
  · dsimp only
    split
    · show (select_next_item s br.2).2.rt.pending_switch = _
      rw [select_next_item_pending]
    · split
      · show (select_next_item s br.2).2.rt.pending_switch = _
        rw [select_next_item_pending]
      · split
        next hne =>
          show (log_prompt s (select_next_item s br.2).2 gi _).2.rt.pending_switch = _
          rw [log_prompt_rt, select_next_item_pending]
        next hne =>
          show (log_prompt s (select_next_item s br.2).2 gi _).2.rt.pending_switch = _
          rw [log_prompt_rt, select_next_item_pending]

theorem advance_prompt_pending (s : Session) (m : Mach) (due : Bool) :
    (advance_prompt s m due).2.rt.pending_switch = m.rt.pending_switch := by
  unfold advance_prompt
  split
  · dsimp only
    split
    · rfl
    · split
      · rfl
      · rw [advance_finish_pending, advance_branch_pending]
  · rfl

/-- Trace/flag characterisation of one `handle_key` call: the trace only
grows; a positive return code means the quit key (3) was just logged; the
`advanced` flag implies a prompt event was appended; "group" log events only
arise when `pending_switch` was set; and `pending_switch` is never newly set
by `handle_key`. -/
theorem handle_key_char (s : Session) (m : Mach) (k : Nat) :
    ∃ Δ, (handle_key s m k).2.2.trace = m.trace ++ Δ ∧
      (0 < (handle_key s m k).1 → Ev.key 3 ∈ Δ) ∧
      ((handle_key s m k).2.1 = true → 0 < countPrompts Δ) ∧
      (∀ t g, Ev.logGroup t g ∈ Δ → t = "group" ∧ m.rt.pending_switch = true) ∧
      ((handle_key s m k).2.2.rt.pending_switch = true → m.rt.pending_switch = true) := by
  unfold handle_key log_key
  dsimp only
  split
  · -- log_key failed: k > 255
    split
    next _ =>
      refine ⟨[], by simp, ?_, ?_, by simp, fun hp => hp⟩
      · intro hc
        exact absurd (show (0 : Int) < -1 from hc) (by decide)
      · intro hc
        exact absurd (show false = true from hc) (by decide)
    next hne =>
      have hne2 : (-1 : Int) ≠ 0 := by decide
      exact absurd hne2 hne
  · -- log_key succeeded: trace gains .key k
    split
    next hne => exact absurd rfl hne
    next _ =>
      split
      · -- quit key: k = 3
        next hk3 =>
        refine ⟨[Ev.key k], rfl, ?_, ?_, by simp, fun hp => hp⟩
        · intro _
          rw [hk3]
          exact List.mem_singleton.mpr rfl
        · intro hc
          exact absurd (show false = true from hc) (by decide)
      · split
        · -- not an advance key
          refine ⟨[Ev.key k], rfl, ?_, ?_, by simp, fun hp => hp⟩
          · intro hc
            exact absurd (show (0 : Int) < 0 from hc) (by decide)
          · intro hc
            exact absurd (show false = true from hc) (by decide)
        · -- advance key
          split
          next hp =>
            -- pending_switch: group change path
            obtain ⟨Δs, hs, hsall⟩ := select_next_group_trace s (addEv m (Ev.key k))
            have hpm : m.rt.pending_switch = true := hp
            have hsgrp : ∀ (t : String) (g : Nat), Ev.logGroup t g ∈ Ev.key k :: Δs →
                t = "group" ∧ m.rt.pending_switch = true := by
              intro t g hm
              rcases List.mem_cons.mp hm with h1 | h2
              · exact absurd h1 (by simp)
              · exact absurd (hsall _ h2) (by simp)
            split
            next _ =>
              refine ⟨Ev.key k :: Δs, ?_, ?_, ?_, hsgrp, fun hpp => hpm⟩
              · rw [hs]
                show m.trace ++ [Ev.key k] ++ Δs = _
                rw [List.append_assoc]
                rfl
              · intro hc
                exact absurd (show (0 : Int) < -1 from hc) (by decide)
              · intro hc
                exact absurd (show false = true from hc) (by decide)
            next _ =>
              obtain ⟨Δa, ha, hap, hag⟩ := advance_prompt_trace s
                { (select_next_group s (addEv m (Ev.key k))).2 with
                  rt := { (select_next_group s (addEv m (Ev.key k))).2.rt with
                    pending_switch := false } } true
              have hgrp2 : ∀ (t : String) (g : Nat), Ev.logGroup t g ∈ Ev.key k :: (Δs ++ Δa) →
                  t = "group" ∧ m.rt.pending_switch = true := by
                intro t g hm
                rcases List.mem_cons.mp hm with h1 | h2
                · exact absurd h1 (by simp)
                · rcases List.mem_append.mp h2 with h3 | h4
                  · exact absurd (hsall _ h3) (by simp)
                  · exact ⟨(hag t g h4).1, hpm⟩
              have htr : ∀ x : Mach, x.trace =
                  (select_next_group s (addEv m (Ev.key k))).2.trace ++ Δa →
                  x.trace = m.trace ++ (Ev.key k :: (Δs ++ Δa)) := by
                intro x hx
                rw [hx, hs]
                show m.trace ++ [Ev.key k] ++ Δs ++ Δa = _
                rw [List.append_assoc, List.append_assoc]
                rfl
              split
              next _ =>
                refine ⟨Ev.key k :: (Δs ++ Δa), htr _ ha, ?_, ?_, hgrp2, fun hpp => hpm⟩
                · intro hc
                  exact absurd (show (0 : Int) < -1 from hc) (by decide)
                · intro hc
                  exact absurd (show false = true from hc) (by decide)
              next hne =>
                refine ⟨Ev.key k :: (Δs ++ Δa), htr _ ha, ?_, ?_, hgrp2, fun hpp => hpm⟩
                · intro hc
                  exact absurd (show (0 : Int) < 0 from hc) (by decide)
                · intro _
                  have hpa := hap (not_not.mp hne)
                  show 0 < List.countP isPromptEv (Ev.key k :: (Δs ++ Δa))
                  rw [List.countP_cons, List.countP_append]
                  have hz : List.countP isPromptEv Δa = countPrompts Δa := rfl
                  omega
          next hp =>
            -- no pending switch: in-group advance path
            obtain ⟨Δa, ha, hap, hag⟩ := advance_prompt_trace s (addEv m (Ev.key k)) false
            have hgrp : ∀ (t : String) (g : Nat), Ev.logGroup t g ∈ Ev.key k :: Δa →
                t = "group" ∧ m.rt.pending_switch = true := by
              intro t g hm
              rcases List.mem_cons.mp hm with h1 | h2
              · exact absurd h1 (by simp)
              · exact absurd (hag t g h2).2 (by decide)
            have htr : ∀ x : Mach, x.trace = (addEv m (Ev.key k)).trace ++ Δa →
                x.trace = m.trace ++ (Ev.key k :: Δa) := by
              intro x hx
              rw [hx]
              show m.trace ++ [Ev.key k] ++ Δa = _
              rw [List.append_assoc]
              rfl
            have hpd : ∀ hpp : (advance_prompt s (addEv m (Ev.key k)) false).2.rt.pending_switch
                = true, m.rt.pending_switch = true := by
              intro hpp
              rw [advance_prompt_pending] at hpp
              exact hpp
            split
            next _ =>
              refine ⟨Ev.key k :: Δa, htr _ ha, ?_, ?_, hgrp, fun hpp => hpd hpp⟩
              · intro hc
                exact absurd (show (0 : Int) < -1 from hc) (by decide)
              · intro hc
                exact absurd (show false = true from hc) (by decide)
            next hne =>
              refine ⟨Ev.key k :: Δa, htr _ ha, ?_, ?_, hgrp, fun hpp => hpd hpp⟩
              · intro hc
                exact absurd (show (0 : Int) < 0 from hc) (by decide)
              · intro _
                have hpa := hap (not_not.mp hne)
                show 0 < List.countP isPromptEv (Ev.key k :: Δa)
                rw [List.countP_cons]
                have hz : List.countP isPromptEv Δa = countPrompts Δa := rfl
                omega

theorem read_key_rt (m : Mach) (r : Nat) : (read_key m r).2.2.rt = m.rt := by
  unfold read_key
  split
  · rfl
  · dsimp only
    split
    · rfl
    · rfl
    · rfl

/-- Trace/flag characterisation of one `update_expiry` call: the trace gains
at most one "expired" group event, no prompts, and `pending_switch` becomes
true only together with an "expired" event. -/
theorem update_expiry_char (s : Session) (m : Mach)
    (hM : s.groups.length ≤ MAX_GROUPS) :
    ∃ Δ, (update_expiry s m).2.2.trace = m.trace ++ Δ ∧
      countPrompts Δ = 0 ∧
      (∀ t g, Ev.logGroup t g ∈ Δ → t = "expired") ∧
      ((update_expiry s m).2.2.rt.pending_switch = true →
        m.rt.pending_switch = true ∨ ∃ g, Ev.logGroup "expired" g ∈ Δ) := by
  unfold update_expiry
  split
  next hgi => exact ⟨[], by simp, rfl, by simp, fun hp => Or.inl hp⟩
  next hgi =>
    split
    next hpend => exact ⟨[], by simp, rfl, by simp, fun _ => Or.inl hpend⟩
    next hpend =>
      dsimp only
      split
      · unfold log_group
        split
        next hmax =>
          have hmax2 : m.rt.group_index ≥ MAX_GROUPS := hmax
          have hlt : ¬ (m.rt.group_index ≥ s.groups.length) := hgi
          omega
        next hmax =>
          split
          next hne => exact absurd rfl hne
          next _ =>
            refine ⟨[Ev.logGroup "expired" m.rt.group_index], rfl, rfl, ?_, ?_⟩
            · intro t g hm
              simp only [List.mem_singleton] at hm
              cases hm
              rfl
            · intro _
              exact Or.inr ⟨m.rt.group_index, List.mem_singleton.mpr rfl⟩
      · exact ⟨[], by simp [now_ms], rfl, by simp, fun hp => Or.inl hp⟩

/-! ## Helper definitions and lemmas: "expired precedes group change" -/

/-- Default event for positional trace lookups. -/
def defEv : Ev := Ev.simple "" ""

/-- A trace is good when every "group" change event is preceded by some
"expired" event. -/
def GoodT (tr : List Ev) : Prop := ∀ j g, tr.getD j defEv = Ev.logGroup "group" g →
  ∃ i g2, i < j ∧ tr.getD i defEv = Ev.logGroup "expired" g2

/-- A machine state is consistent when a set `pending_switch` flag is backed
by an "expired" event already in the trace. -/
def PendOK (m : Mach) : Prop := m.rt.pending_switch = true →
  ∃ i g, i < m.trace.length ∧ m.trace.getD i defEv = Ev.logGroup "expired" g

theorem mem_pos_getD (tr : List Ev) (e : Ev) (h : e ∈ tr) :
    ∃ i, i < tr.length ∧ tr.getD i defEv = e := by
  obtain ⟨n, hn, he⟩ := List.mem_iff_getElem.mp h
  exact ⟨n, hn, by rw [List.getD_eq_getElem tr defEv hn]; exact he⟩

theorem goodT_append_of_expired (tr Δ : List Ev) (hg : GoodT tr)
    (he : ∃ i g, i < tr.length ∧ tr.getD i defEv = Ev.logGroup "expired" g) :
    GoodT (tr ++ Δ) := by
  intro j g hj
  by_cases hlt : j < tr.length
  · rw [List.getD_append _ _ _ _ hlt] at hj
    obtain ⟨i, g2, hij, hie⟩ := hg j g hj
    exact ⟨i, g2, hij, by rw [List.getD_append _ _ _ _ (Nat.lt_trans hij hlt)]; exact hie⟩
  · obtain ⟨i, g2, hi, hie⟩ := he
    refine ⟨i, g2, by omega, ?_⟩
    rw [List.getD_append _ _ _ _ hi]
    exact hie

theorem goodT_append_no_group (tr Δ : List Ev) (hg : GoodT tr)
    (hng : ∀ g, Ev.logGroup "group" g ∉ Δ) : GoodT (tr ++ Δ) := by
  intro j g hj
  by_cases hlt : j < tr.length
  · rw [List.getD_append _ _ _ _ hlt] at hj
    obtain ⟨i, g2, hij, hie⟩ := hg j g hj
    exact ⟨i, g2, hij, by rw [List.getD_append _ _ _ _ (Nat.lt_trans hij hlt)]; exact hie⟩
  · by_cases hj2 : j < (tr ++ Δ).length
    · have hjl : j - tr.length < Δ.length := by
        rw [List.length_append] at hj2
        omega
      rw [List.getD_append_right _ _ _ _ (Nat.le_of_not_lt hlt)] at hj
      have : Ev.logGroup "group" g ∈ Δ := by
        rw [← hj, List.getD_eq_getElem Δ defEv hjl]
        exact List.getElem_mem hjl
      exact absurd this (hng g)
    · rw [List.getD_eq_default _ _ (Nat.le_of_not_lt hj2)] at hj
      exact absurd hj (by simp [defEv])

theorem pendok_step (m m' : Mach) (Δ : List Ev) (htr : m'.trace = m.trace ++ Δ)
    (hsrc : m'.rt.pending_switch = true →
      m.rt.pending_switch = true ∨ ∃ g, Ev.logGroup "expired" g ∈ Δ)
    (hpm : PendOK m) : PendOK m' := by
  intro hp
  rcases hsrc hp with hl | ⟨g, hg⟩
  · obtain ⟨i, g2, hi, hie⟩ := hpm hl
    refine ⟨i, g2, ?_, ?_⟩
    · rw [htr, List.length_append]
      omega
    · rw [htr, List.getD_append _ _ _ _ hi]
      exact hie
  · obtain ⟨i, hi, hie⟩ := mem_pos_getD Δ _ hg
    refine ⟨m.trace.length + i, g, ?_, ?_⟩
    · rw [htr, List.length_append]
      omega
    · rw [htr, List.getD_append_right _ _ _ _ (Nat.le_add_right _ _)]
      rw [Nat.add_sub_cancel_left]
      exact hie

theorem pendok_congr (a b : Mach) (ht : a.trace = b.trace)
    (hp : a.rt.pending_switch = b.rt.pending_switch) (h : PendOK b) : PendOK a := by
  intro hx
  rw [ht]
  exact h (by rw [← hp]; exact hx)

/-- Master characterisation of the wait loop: the trace only grows; a
positive return code means the quit key was logged; returning 0 implies the
`advanced` flag; the flag implies a prompt event; `pending_switch` is only
newly set together with an "expired" event; and goodness of the trace
("group" events preceded by "expired" events) is preserved. -/
theorem run_wait_loop_go_char (s : Session) (hM : s.groups.length ≤ MAX_GROUPS) :
    ∀ (fuel : Nat) (adv : Bool) (m : Mach),
    ∃ Δ, (run_wait_loop_go s fuel adv m).2.2.trace = m.trace ++ Δ ∧
      (0 < (run_wait_loop_go s fuel adv m).1 → Ev.key 3 ∈ Δ) ∧
      ((run_wait_loop_go s fuel adv m).1 = 0 →
        (run_wait_loop_go s fuel adv m).2.1 = true) ∧
      ((run_wait_loop_go s fuel adv m).2.1 = true →
        adv = true ∨ 0 < countPrompts Δ) ∧
      ((run_wait_loop_go s fuel adv m).2.2.rt.pending_switch = true →
        m.rt.pending_switch = true ∨ ∃ g, Ev.logGroup "expired" g ∈ Δ) ∧
      (GoodT m.trace → PendOK m →
        GoodT (run_wait_loop_go s fuel adv m).2.2.trace ∧
        PendOK (run_wait_loop_go s fuel adv m).2.2) := by
  intro fuel
  induction fuel with
  | zero =>
    intro adv m
    refine ⟨[], by simp [run_wait_loop_go], ?_, ?_, fun h => Or.inl h,
      fun hp => Or.inl hp, fun hG hP => ⟨hG, hP⟩⟩
    · intro hc
      exact absurd (show (0 : Int) < -1 from hc) (by decide)
    · intro hc
      exact absurd (show (-1 : Int) = 0 from hc) (by decide)
  | succ fuel ih =>
    intro adv m
    simp only [run_wait_loop_go]
    obtain ⟨Δu, hu1, hu2, hu3, hu4⟩ := update_expiry_char s m hM
    have hgu0 : GoodT m.trace → GoodT ((update_expiry s m).2.2.trace) := by
      intro hG
      rw [hu1]
      refine goodT_append_no_group _ _ hG (fun g hgm => ?_)
      have := hu3 _ _ hgm
      simp at this
    split
    next _ =>
      refine ⟨Δu, hu1, ?_, ?_, fun h => Or.inl h, hu4, ?_⟩
      · intro hc
        exact absurd (show (0 : Int) < -1 from hc) (by decide)
      · intro hc
        exact absurd (show (-1 : Int) = 0 from hc) (by decide)
      · intro hG hP
        exact ⟨hgu0 hG, pendok_step m _ Δu hu1 hu4 hP⟩
    next _ =>
      have hrtr : (read_key (update_expiry s m).2.2 (update_expiry s m).2.1).2.2.trace = (update_expiry s m).2.2.trace := read_key_trace _ _
      have hrrt : (read_key (update_expiry s m).2.2 (update_expiry s m).2.1).2.2.rt = (update_expiry s m).2.2.rt := read_key_rt _ _
      have hpud : ∀ hp : (read_key (update_expiry s m).2.2 (update_expiry s m).2.1).2.2.rt.pending_switch = true,
          m.rt.pending_switch = true ∨ ∃ g, Ev.logGroup "expired" g ∈ Δu := by
        intro hp
        exact hu4 (by rw [← hrrt]; exact hp)
      have hgr0 : GoodT m.trace → GoodT ((read_key (update_expiry s m).2.2 (update_expiry s m).2.1).2.2.trace) := by
        intro hG
        rw [hrtr]
        exact hgu0 hG
      have hpr0 : PendOK m → PendOK ((read_key (update_expiry s m).2.2 (update_expiry s m).2.1).2.2) := by
        intro hP
        exact pendok_congr _ _ hrtr (congrArg Runtime.pending_switch hrrt)
          (pendok_step m _ Δu hu1 hu4 hP)
      split
      next _ =>
        refine ⟨Δu, ?_, ?_, ?_, fun h => Or.inl h, hpud, ?_⟩
        · show (read_key (update_expiry s m).2.2 (update_expiry s m).2.1).2.2.trace = _
          rw [hrtr]
          exact hu1
        · intro hc
          exact absurd (show (0 : Int) < -1 from hc) (by decide)
        · intro hc
          exact absurd (show (-1 : Int) = 0 from hc) (by decide)
        · intro hG hP
          exact ⟨hgr0 hG, hpr0 hP⟩
      next _ =>
        split
        next _ =>
          obtain ⟨Δ2, h21, h22, h23, h24, h25, h26⟩ := ih adv (read_key (update_expiry s m).2.2 (update_expiry s m).2.1).2.2
          refine ⟨Δu ++ Δ2, ?_, ?_, h23, ?_, ?_, ?_⟩
          · show (run_wait_loop_go s fuel adv (read_key (update_expiry s m).2.2 (update_expiry s m).2.1).2.2).2.2.trace = _
            rw [h21, hrtr, hu1, List.append_assoc]
          · intro hc
            exact List.mem_append_right _ (h22 hc)
          · intro ha
            rcases h24 ha with h | h
            · exact Or.inl h
            · right
              rw [countPrompts_append]
              omega
          · intro hp
            rcases h25 hp with h | ⟨g, hg⟩
            · rcases hpud h with h2 | ⟨g2, hg2⟩
              · exact Or.inl h2
              · exact Or.inr ⟨g2, List.mem_append_left _ hg2⟩
            · exact Or.inr ⟨g, List.mem_append_right _ hg⟩
          · intro hG hP
            exact h26 (hgr0 hG) (hpr0 hP)
        next _ =>
          obtain ⟨Δh, hh1, hh2, hh3, hh4, hh5⟩ := handle_key_char s (read_key (update_expiry s m).2.2 (update_expiry s m).2.1).2.2 (read_key (update_expiry s m).2.2 (update_expiry s m).2.1).2.1
          have htr2 : (handle_key s (read_key (update_expiry s m).2.2 (update_expiry s m).2.1).2.2 (read_key (update_expiry s m).2.2 (update_expiry s m).2.1).2.1).2.2.trace = m.trace ++ (Δu ++ Δh) := by
            rw [hh1, hrtr, hu1, List.append_assoc]
          have hpend2 : (handle_key s (read_key (update_expiry s m).2.2 (update_expiry s m).2.1).2.2 (read_key (update_expiry s m).2.2 (update_expiry s m).2.1).2.1).2.2.rt.pending_switch = true →
              m.rt.pending_switch = true ∨ ∃ g, Ev.logGroup "expired" g ∈ Δu ++ Δh := by
            intro hp
            rcases hpud (hh5 hp) with h3 | ⟨g2, hg2⟩
            · exact Or.inl h3
            · exact Or.inr ⟨g2, List.mem_append_left _ hg2⟩
          have hgp : GoodT m.trace → PendOK m →
              GoodT ((handle_key s (read_key (update_expiry s m).2.2 (update_expiry s m).2.1).2.2 (read_key (update_expiry s m).2.2 (update_expiry s m).2.1).2.1).2.2.trace) ∧ PendOK ((handle_key s (read_key (update_expiry s m).2.2 (update_expiry s m).2.1).2.2 (read_key (update_expiry s m).2.2 (update_expiry s m).2.1).2.1).2.2) := by
            intro hG hP
            have hgr := hgr0 hG
            have hpr := hpr0 hP
            constructor
            · rw [hh1]
              by_cases hrp : (read_key (update_expiry s m).2.2 (update_expiry s m).2.1).2.2.rt.pending_switch = true
              · exact goodT_append_of_expired _ _ hgr (hpr hrp)
              · exact goodT_append_no_group _ _ hgr (fun g hgm => hrp (hh4 _ _ hgm).2)
            · exact pendok_step (read_key (update_expiry s m).2.2 (update_expiry s m).2.1).2.2 _ Δh hh1 (fun hp => Or.inl (hh5 hp)) hpr
          have hadv : (adv || (handle_key s (read_key (update_expiry s m).2.2 (update_expiry s m).2.1).2.2 (read_key (update_expiry s m).2.2 (update_expiry s m).2.1).2.1).2.1) = true →
              adv = true ∨ 0 < countPrompts (Δu ++ Δh) := by
            intro ha
            have ha2 : adv = true ∨ (handle_key s (read_key (update_expiry s m).2.2 (update_expiry s m).2.1).2.2 (read_key (update_expiry s m).2.2 (update_expiry s m).2.1).2.1).2.1 = true := by simpa using ha
            rcases ha2 with h | h
            · exact Or.inl h
            · right
              have := hh3 h
              rw [countPrompts_append]
              omega
          split
          next _ =>
            refine ⟨Δu ++ Δh, htr2, ?_, ?_, hadv, hpend2, hgp⟩
            · intro hc
              exact absurd (show (0 : Int) < -1 from hc) (by decide)
            · intro hc
              exact absurd (show (-1 : Int) = 0 from hc) (by decide)
          next _ =>
            split
            next hcond =>
              refine ⟨Δu ++ Δh, htr2, ?_, ?_, hadv, hpend2, hgp⟩
              · intro hc
                exact List.mem_append_right _ (hh2 hc)
              · intro h0
                have h02 : (handle_key s (read_key (update_expiry s m).2.2 (update_expiry s m).2.1).2.2 (read_key (update_expiry s m).2.2 (update_expiry s m).2.1).2.1).1 = 0 := h0
                have hc2 : decide ((handle_key s (read_key (update_expiry s m).2.2 (update_expiry s m).2.1).2.2 (read_key (update_expiry s m).2.2 (update_expiry s m).2.1).2.1).1 > 0) = true ∨ (adv || (handle_key s (read_key (update_expiry s m).2.2 (update_expiry s m).2.1).2.2 (read_key (update_expiry s m).2.2 (update_expiry s m).2.1).2.1).2.1) = true := by
                  simpa using hcond
                rcases hc2 with h | h
                · have h3 := of_decide_eq_true h
                  omega
                · exact h
            next _ =>
              obtain ⟨Δ2, h21, h22, h23, h24, h25, h26⟩ := ih (adv || (handle_key s (read_key (update_expiry s m).2.2 (update_expiry s m).2.1).2.2 (read_key (update_expiry s m).2.2 (update_expiry s m).2.1).2.1).2.1) (handle_key s (read_key (update_expiry s m).2.2 (update_expiry s m).2.1).2.2 (read_key (update_expiry s m).2.2 (update_expiry s m).2.1).2.1).2.2
              refine ⟨Δu ++ Δh ++ Δ2, ?_, ?_, h23, ?_, ?_, ?_⟩
              · show (run_wait_loop_go s fuel (adv || (handle_key s (read_key (update_expiry s m).2.2 (update_expiry s m).2.1).2.2 (read_key (update_expiry s m).2.2 (update_expiry s m).2.1).2.1).2.1) (handle_key s (read_key (update_expiry s m).2.2 (update_expiry s m).2.1).2.2 (read_key (update_expiry s m).2.2 (update_expiry s m).2.1).2.1).2.2).2.2.trace = _
                rw [h21, htr2, List.append_assoc]
              · intro hc
                exact List.mem_append_right _ (h22 hc)
              · intro ha
                rcases h24 ha with h | h
                · rcases hadv h with h2 | h2
                  · exact Or.inl h2
                  · right
                    rw [countPrompts_append]
                    omega
                · right
                  rw [countPrompts_append]
                  omega
              · intro hp
                rcases h25 hp with h | ⟨g, hg⟩
                · rcases hpend2 h with h3 | ⟨g2, hg2⟩
                  · exact Or.inl h3
                  · exact Or.inr ⟨g2, List.mem_append_left _ hg2⟩
                · exact Or.inr ⟨g, List.mem_append_right _ hg⟩
              · intro hG hP
                obtain ⟨hg3, hp3⟩ := hgp hG hP
                exact h26 hg3 hp3

/-- Characterisation of the main loop: the trace only grows, and a 0 result
means either the quit key was received or the step cap was exhausted by
successful prompt advances. -/
theorem run_loop_go_char (s : Session) (hM : s.groups.length ≤ MAX_GROUPS) :
    ∀ (fuel : Nat) (m : Mach),
    ∃ Δ, (run_loop_go s fuel m).2.trace = m.trace ++ Δ ∧
      ((run_loop_go s fuel m).1 = 0 → Ev.key 3 ∈ Δ ∨ fuel ≤ countPrompts Δ) ∧
      (GoodT m.trace → PendOK m →
        GoodT (run_loop_go s fuel m).2.trace ∧ PendOK (run_loop_go s fuel m).2) := by
  intro fuel
  induction fuel with
  | zero =>
    intro m
    exact ⟨[], by simp [run_loop_go], fun _ => Or.inr (Nat.zero_le _),
      fun hG hP => ⟨hG, hP⟩⟩
  | succ fuel ih =>
    intro m
    simp only [run_loop_go, run_wait_loop]
    obtain ⟨Δw, hw1, hw2, hw3, hw4, hw5, hw6⟩ :=
      run_wait_loop_go_char s hM MAX_WAIT_LOOPS false m
    split
    next _ =>
      refine ⟨Δw, hw1, ?_, ?_⟩
      · intro hc
        exact absurd (show (-1 : Int) = 0 from hc) (by decide)
      · intro hG hP
        exact hw6 hG hP
    next hn1 =>
      split
      next hpos =>
        refine ⟨Δw, hw1, ?_, ?_⟩
        · intro _
          exact Or.inl (hw2 hpos)
        · intro hG hP
          exact hw6 hG hP
      next hn2 =>
        split
        next _ =>
          split
          next hne => exact absurd rfl hne
          next _ =>
            refine ⟨Δw ++ [Ev.simple "error" "wait loop exceeded"], ?_, ?_, ?_⟩
            · show (addEv _ _).trace = _
              unfold addEv
              rw [hw1, List.append_assoc]
            · intro hc
              exact absurd (show (-1 : Int) = 0 from hc) (by decide)
            · intro hG hP
              obtain ⟨hg2, hp2⟩ := hw6 hG hP
              constructor
              · show GoodT ((run_wait_loop_go s MAX_WAIT_LOOPS false m).2.2.trace
                  ++ [Ev.simple "error" "wait loop exceeded"])
                exact goodT_append_no_group _ _ hg2 (by simp)
              · refine pendok_step _ _ [Ev.simple "error" "wait loop exceeded"] rfl
                  (fun hp => Or.inl hp) hp2
        next hn3 =>
          obtain ⟨Δ2, h21, h22, h23⟩ := ih
            (run_wait_loop_go s MAX_WAIT_LOOPS false m).2.2
          have hz : (run_wait_loop_go s MAX_WAIT_LOOPS false m).1 = 0 := by omega
          have hadv : (run_wait_loop_go s MAX_WAIT_LOOPS false m).2.1 = true :=
            hw3 hz
          have hcw : 0 < countPrompts Δw := by
            rcases hw4 hadv with h | h
            · exact absurd h (by decide)
            · exact h
          refine ⟨Δw ++ Δ2, ?_, ?_, ?_⟩
          · rw [h21, hw1, List.append_assoc]
          · intro hc
            rcases h22 hc with h | h
            · exact Or.inl (List.mem_append_right _ h)
            · right
              rw [countPrompts_append]
              omega
          · intro hG hP
            obtain ⟨hg2, hp2⟩ := hw6 hG hP
            exact h23 hg2 hp2

/-- C2 counterexample session: one group ("" , 5 s) holding one item, the
whole 5-byte buffer. -/
def c2sess : Session := ⟨[104, 101, 108, 108, 111], [⟨0, 0, 5, 0, 1⟩], [⟨0, 5⟩]⟩

/-- C2 counterexample machine family: clock pinned at 0, key stream
constantly the advance key (space), parametrised by the two stream cursors
and the trace. -/
def c2mach (cp kp : Nat) (tr : List Ev) : Mach :=
  ⟨⟨1, 0, 0, 0, 5000, false⟩, [0], [0], 1, tr, fun _ => 0, cp,
    fun _ => KeyRes.key 32, kp⟩

set_option maxHeartbeats 2000000 in
/-- One wait-loop pass on the C2 machine: a space key advances the prompt
(item-order wrap reshuffle on the 1-item group), consuming one clock read
and one key read. -/
theorem c2_wait_step (cp kp : Nat) (tr : List Ev) :
    run_wait_loop c2sess (c2mach cp kp tr) =
      (0, true, c2mach (cp + 1) (kp + 1)
        (tr ++ [Ev.key 32] ++ [Ev.shuffleItems 0] ++ [Ev.prompt 0 0])) := by
  show run_wait_loop_go c2sess (1048575 + 1) false (c2mach cp kp tr) = _
  rfl

theorem run_loop_go_step_adv (s : Session) (fuel : Nat) (m m' : Mach)
    (hw : run_wait_loop s m = (0, true, m')) :
    run_loop_go s (fuel + 1) m = run_loop_go s fuel m' := by
  have hw2 : run_wait_loop_go s MAX_WAIT_LOOPS false m = (0, true, m') := hw
  simp [run_loop_go, run_wait_loop, hw2]

/-- Every main-loop pass on the C2 machine succeeds and only ever adds the
space-key, reshuffle and prompt events. -/
theorem c2_loop_go (fuel : Nat) : ∀ (cp kp : Nat) (tr : List Ev),
    (run_loop_go c2sess fuel (c2mach cp kp tr)).1 = 0 ∧
    (∀ e, e ∈ (run_loop_go c2sess fuel (c2mach cp kp tr)).2.trace →
      e ∈ tr ∨ e = Ev.key 32 ∨ e = Ev.shuffleItems 0 ∨ e = Ev.prompt 0 0) := by
  induction fuel with
  | zero =>
    intro cp kp tr
    exact ⟨rfl, fun e he => Or.inl he⟩
  | succ fuel ih =>
    intro cp kp tr
    rw [run_loop_go_step_adv c2sess fuel _ _ (c2_wait_step cp kp tr)]
    obtain ⟨ha, hb⟩ := ih (cp + 1) (kp + 1)
      (tr ++ [Ev.key 32] ++ [Ev.shuffleItems 0] ++ [Ev.prompt 0 0])
    refine ⟨ha, fun e he => ?_⟩
    rcases hb e he with h | h | h | h
    · rcases List.mem_append.mp h with h2 | h2
      · rcases List.mem_append.mp h2 with h3 | h3
        · rcases List.mem_append.mp h3 with h4 | h4
          · exact Or.inl h4
          · exact Or.inr (Or.inl (List.mem_singleton.mp h4))
        · exact Or.inr (Or.inr (Or.inl (List.mem_singleton.mp h3)))
      · exact Or.inr (Or.inr (Or.inr (List.mem_singleton.mp h2)))
    · exact Or.inr (Or.inl h)
    · exact Or.inr (Or.inr (Or.inl h))
    · exact Or.inr (Or.inr (Or.inr h))

/-- C2 (amended): the main loop's result is 0 only when either the quit key
(code 3) was received and logged, or the `MAX_PROMPTS_PER_RUN` step cap was
exhausted by successful prompt advances; internal errors and the wait-loop
cap yield a non-success result. -/
theorem c2_success_requires_quit_or_cap (s : Session) (m : Mach)
    (hM : s.groups.length ≤ MAX_GROUPS) :
    ∃ Δ, (run_loop s m).2.trace = m.trace ++ Δ ∧
      ((run_loop s m).1 = 0 →
        Ev.key 3 ∈ Δ ∨ MAX_PROMPTS_PER_RUN - 1 ≤ countPrompts Δ) := by
  unfold run_loop
  split
  · exact ⟨[], by simp, fun hc => absurd (show (-1 : Int) = 0 from hc) (by decide)⟩
  · obtain ⟨Δ, h1, h2, _⟩ := run_loop_go_char s hM (MAX_PROMPTS_PER_RUN - 1) m
    exact ⟨Δ, h1, h2⟩

/-- C2 witness: the amended theorem applied to the concrete one-group
session and machine. -/
theorem c2_witness :
    c2sess.groups.length ≤ MAX_GROUPS ∧
    (∃ Δ, (run_loop c2sess (c2mach 0 0 [])).2.trace = (c2mach 0 0 []).trace ++ Δ ∧
      ((run_loop c2sess (c2mach 0 0 [])).1 = 0 →
        Ev.key 3 ∈ Δ ∨ MAX_PROMPTS_PER_RUN - 1 ≤ countPrompts Δ)) :=
  ⟨by decide, c2_success_requires_quit_or_cap c2sess (c2mach 0 0 []) (by decide)⟩

/-- C2 counterexample: with the space key held down and the clock pinned at
0, every pass advances successfully, the step cap is exhausted, and
`run_loop` returns 0 even though the quit key never arrived (no `key 3`
event is ever logged, and the key stream never yields 3).  This refutes the
claim that 0 is returned only on the quit key. -/
theorem c2_cap_success_without_quit :
    (run_loop c2sess (c2mach 0 0 [])).1 = 0 ∧
      Ev.key 3 ∉ (run_loop c2sess (c2mach 0 0 [])).2.trace := by
  have h := c2_loop_go (MAX_PROMPTS_PER_RUN - 1) 0 0 []
  have hrl : run_loop c2sess (c2mach 0 0 []) =
      run_loop_go c2sess (MAX_PROMPTS_PER_RUN - 1) (c2mach 0 0 []) := by
    unfold run_loop
    rw [if_neg (by decide)]
  rw [hrl]
  refine ⟨h.1, fun hmem => ?_⟩
  rcases h.2 _ hmem with h1 | h1 | h1 | h1
  · simp at h1
  · simp at h1
  · simp at h1
  · simp at h1

/-! ## Helper definitions and lemmas: shuffle cycles (C9) -/

/-- Session wellformedness (spec-side hypothesis for runner theorems): the
bound assertions plus the parser-established range invariants. -/
def SessWF (s : Session) : Bool :=
  assert_session_bounds s &&
  decide (s.items.length ≤ MAX_ITEMS_TOTAL) &&
  decide (0 < s.buffer.length) &&
  s.groups.all (fun g =>
    decide (g.item_start + g.item_count ≤ s.items.length) &&
    decide (0 < g.seconds) &&
    decide (g.seconds ≤ MAX_GROUP_SECONDS) &&
    decide (g.name_offset + g.name_length ≤ s.buffer.length)) &&
  s.items.all (fun it =>
    decide (0 < it.length) &&
    decide (it.offset + it.length ≤ s.buffer.length))

theorem sessWF_iff (s : Session) : SessWF s = true ↔
    (0 < s.groups.length ∧ s.groups.length ≤ MAX_GROUPS ∧
     s.items.length ≤ MAX_ITEMS_TOTAL ∧ 0 < s.buffer.length ∧
     (∀ g ∈ s.groups, 0 < g.item_count ∧ g.item_count ≤ MAX_ITEMS_PER_GROUP ∧
       g.item_start + g.item_count ≤ s.items.length ∧
       0 < g.seconds ∧ g.seconds ≤ MAX_GROUP_SECONDS ∧
       g.name_offset + g.name_length ≤ s.buffer.length) ∧
     (∀ it ∈ s.items, 0 < it.length ∧ it.offset + it.length ≤ s.buffer.length)) := by
  unfold SessWF assert_session_bounds
  simp only [Bool.and_eq_true, decide_eq_true_eq, List.all_eq_true]
  constructor
  · rintro ⟨⟨⟨⟨⟨⟨h11, h12⟩, h13⟩, h3⟩, h4⟩, h5⟩, h6⟩
    refine ⟨h11, h12, h3, h4, ?_, ?_⟩
    · intro g hg
      obtain ⟨hc1, hc2⟩ := h13 g hg
      obtain ⟨⟨⟨hd1, hd2⟩, hd3⟩, hd4⟩ := h5 g hg
      exact ⟨hc1, hc2, hd1, hd2, hd3, hd4⟩
    · intro it hit
      obtain ⟨he1, he2⟩ := h6 it hit
      exact ⟨he1, he2⟩
  · rintro ⟨h1, h2, h3, h4, h5, h6⟩
    refine ⟨⟨⟨⟨⟨⟨h1, h2⟩, ?_⟩, h3⟩, h4⟩, ?_⟩, ?_⟩
    · intro g hg
      exact ⟨(h5 g hg).1, (h5 g hg).2.1⟩
    · intro g hg
      obtain ⟨_, _, hd1, hd2, hd3, hd4⟩ := h5 g hg
      exact ⟨⟨⟨hd1, hd2⟩, hd3⟩, hd4⟩
    · intro it hit
      exact ⟨(h6 it hit).1, (h6 it hit).2⟩

/-- The sequence of `group_index` values written by `n` successive
`select_next_group` calls. -/
def selN (s : Session) : Nat → Mach → List Nat × Mach
  | 0, m => ([], m)
  | n + 1, m =>
    let r := select_next_group s m
    let rest := selN s n r.2
    (r.2.rt.group_index :: rest.1, rest.2)

/-- The sequence of `item_index` values selected by `n` successive in-group
`advance_prompt` calls. -/
def advN (s : Session) : Nat → Mach → List Nat × Mach
  | 0, m => ([], m)
  | n + 1, m =>
    let r := advance_prompt s m false
    let rest := advN s n r.2
    (r.2.rt.item_index :: rest.1, rest.2)

theorem rng_shuffle_groups_perm (st : Nat) (l : List Nat) (c : Nat)
    (sg : Nat × List Nat) (hlen : c ≤ l.length)
    (h : rng_shuffle_groups st l c = some sg) : sg.2.Perm l := by
  unfold rng_shuffle_groups at h
  split at h
  · exact Option.noConfusion h
  · split at h
    · cases h
      exact List.Perm.refl _
    next hc2 =>
      cases h
      exact shuffle_go_perm (c - 1) st l 1 (by omega)

theorem rng_shuffle_items_perm (st : Nat) (l : List Nat) (c : Nat)
    (sg : Nat × List Nat) (hlen : c ≤ l.length)
    (h : rng_shuffle_items st l c = some sg) : sg.2.Perm l := by
  unfold rng_shuffle_items at h
  split at h
  · exact Option.noConfusion h
  · split at h
    · cases h
      exact List.Perm.refl _
    next hc2 =>
      cases h
      exact shuffle_go_perm (c - 1) st l 1 (by omega)

theorem rng_shuffle_items_isSome (st : Nat) (l : List Nat) (c : Nat)
    (hc : c ≤ MAX_ITEMS_PER_GROUP) :
    ∃ sg, rng_shuffle_items st l c = some sg := by
  unfold rng_shuffle_items
  rw [if_neg (by omega)]
  split
  · exact ⟨(st, l), rfl⟩
  · exact ⟨_, rfl⟩

theorem drop_take_succ (l : List Nat) (p n : Nat) (h : p < l.length) :
    (l.drop p).take (n + 1) = l.getD p 0 :: (l.drop (p + 1)).take n := by
  have hd : l.drop p = l.getD p 0 :: l.drop (p + 1) := by
    rw [List.getD_eq_getElem _ _ h]
    exact List.drop_eq_getElem_cons h
  rw [hd, List.take_succ_cons]

/-- `select_next_group` never changes `group_order` except through a
successful reshuffle. -/
theorem select_next_group_order (s : Session) (m : Mach) :
    (select_next_group s m).2.group_order = m.group_order ∨
    (∃ sg, rng_shuffle_groups m.rng m.group_order s.groups.length = some sg ∧
      (select_next_group s m).2.group_order = sg.2) := by
  unfold select_next_group
  split
  · exact Or.inl rfl
  · dsimp only
    by_cases h1 : m.rt.order_pos ≥ s.groups.length
    · rw [if_pos h1]
      cases hsh : rng_shuffle_groups m.rng m.group_order s.groups.length with
      | none =>
        simp only [hsh]
        split
        next _ => exact Or.inl rfl
        next hne =>
          have hne2 : (-1 : Int) ≠ 0 := by decide
          exact absurd hne2 hne
      | some sg =>
        simp only [hsh, log_simple]
        split
        next hne => exact absurd rfl hne
        next _ =>
          try dsimp only
          split
          · exact Or.inr ⟨sg, rfl, rfl⟩
          · exact Or.inr ⟨sg, rfl, rfl⟩
    · rw [if_neg h1]
      split
      next hne => exact absurd rfl hne
      next _ =>
        try dsimp only
        split
        · exact Or.inl rfl
        · exact Or.inl rfl

/-- One `select_next_group` call keeps `group_order` a permutation of the
group indices. -/
theorem select_next_group_perm (s : Session) (m : Mach) (k : Nat)
    (hk : s.groups.length = k)
    (hperm : m.group_order.Perm (List.range k)) :
    (select_next_group s m).2.group_order.Perm (List.range k) := by
  rcases select_next_group_order s m with h | ⟨sg, hsh, hord⟩
  · rw [h]
    exact hperm
  · rw [hord]
    have hlen : s.groups.length ≤ m.group_order.length := by
      rw [hperm.length_eq, List.length_range, hk]
    exact (rng_shuffle_groups_perm _ _ _ _ hlen hsh).trans hperm

/-- Within one shuffle cycle (`order_pos = p`, `p + n ≤ k`), `n` successive
group selections read `group_order[p..p+n)` in order, leave `group_order`
unchanged, and advance the cursor to `p + n`. -/
theorem selN_run (s : Session) (k : Nat) (hk : s.groups.length = k) :
    ∀ (n : Nat) (m : Mach) (p : Nat), m.rt.order_pos = p → p + n ≤ k →
    m.group_order.Perm (List.range k) →
    (selN s n m).1 = (m.group_order.drop p).take n ∧
    (selN s n m).2.group_order = m.group_order ∧
    (selN s n m).2.rt.order_pos = p + n := by
  intro n
  induction n with
  | zero =>
    intro m p hp hpn hperm
    exact ⟨by simp [selN], rfl, by rw [Nat.add_zero]; exact hp⟩
  | succ n ih =>
    intro m p hp hpn hperm
    have hp_lt : p < k := by omega
    have hlen : m.group_order.length = k := by
      rw [hperm.length_eq, List.length_range]
    have h0 : ¬ (s.groups.length = 0) := by omega
    have hglt : p < m.group_order.length := by omega
    have hgi_lt : m.group_order.getD p 0 < k := by
      have hmem : m.group_order.getD p 0 ∈ m.group_order := by
        rw [List.getD_eq_getElem _ _ hglt]
        exact List.getElem_mem hglt
      exact List.mem_range.mp (hperm.mem_iff.mp hmem)
    have hstep : select_next_group s m =
        (0, { m with rt := { m.rt with
          group_index := m.group_order.getD p 0,
          order_pos := p + 1 } }) := by
      unfold select_next_group
      rw [if_neg h0]
      dsimp only
      rw [if_neg (show ¬ (m.rt.order_pos ≥ s.groups.length) by omega)]
      rw [if_neg (by simp : ¬ ((0 : Int), m).1 ≠ 0)]
      dsimp only
      rw [hp]
      rw [if_neg (show ¬ (m.group_order.getD p 0 ≥ s.groups.length) by omega)]
    have hsel : selN s (n + 1) m =
        (m.group_order.getD p 0 ::
          (selN s n { m with rt := { m.rt with
            group_index := m.group_order.getD p 0,
            order_pos := p + 1 } }).1,
         (selN s n { m with rt := { m.rt with
            group_index := m.group_order.getD p 0,
            order_pos := p + 1 } }).2) := by
      simp only [selN, hstep]
    obtain ⟨ih1, ih2, ih3⟩ := ih
      { m with rt := { m.rt with
          group_index := m.group_order.getD p 0,
          order_pos := p + 1 } } (p + 1) rfl (by omega) hperm
    refine ⟨?_, ?_, ?_⟩
    · rw [hsel]
      show m.group_order.getD p 0 :: _ = _
      rw [ih1]
      show m.group_order.getD p 0 :: (m.group_order.drop (p + 1)).take n = _
      rw [drop_take_succ _ _ _ hglt]
    · rw [hsel]
      exact ih2
    · rw [hsel]
      rw [ih3]
      omega

/-- One in-group advance (`due_to_switch = false`, no wraparound): bumps the
item cursor, selects `item_order[item_pos+1]`, and logs its prompt. -/
theorem advance_false_step (s : Session) (m : Mach)
    (hwf : SessWF s = true)
    (hgi : m.rt.group_index < s.groups.length)
    (hlen : m.item_order.length = (s.groups.get ⟨m.rt.group_index, hgi⟩).item_count)
    (hmem : ∀ x ∈ m.item_order, x < s.items.length)
    (hpos : m.rt.item_pos + 1 < m.item_order.length) :
    advance_prompt s m false =
      (0, { m with
        rt := { m.rt with
          item_pos := m.rt.item_pos + 1,
          item_index := m.item_order.getD (m.rt.item_pos + 1) 0 },
        trace := m.trace ++ [Ev.prompt m.rt.group_index
          (m.item_order.getD (m.rt.item_pos + 1) 0)] }) := by
  obtain ⟨hL1, hL2, hL3, hL4, hG, hI⟩ := (sessWF_iff s).mp hwf
  have hgmem : s.groups.get ⟨m.rt.group_index, hgi⟩ ∈ s.groups := List.get_mem _ _ hgi
  obtain ⟨hc0, hcM, hcR, _, _, hcN⟩ := hG _ hgmem
  have hidx_mem : m.item_order.getD (m.rt.item_pos + 1) 0 ∈ m.item_order := by
    rw [List.getD_eq_getElem _ _ hpos]
    exact List.getElem_mem hpos
  have hidx : m.item_order.getD (m.rt.item_pos + 1) 0 < s.items.length := hmem _ hidx_mem
  obtain ⟨hit1, hit2⟩ := hI _ (List.getElem_mem hidx)
  unfold advance_prompt
  rw [dif_pos hgi]
  try dsimp only
  rw [if_neg (show ¬ ((s.groups.get ⟨m.rt.group_index, hgi⟩).item_count = 0) by omega)]
  rw [if_neg (show ¬ ((s.groups.get ⟨m.rt.group_index, hgi⟩).item_count >
    MAX_ITEMS_PER_GROUP) by omega)]
  have hbr : advance_branch s m m.rt.group_index
      ((s.groups.get ⟨m.rt.group_index, hgi⟩).item_count) false =
      (0, { m with rt := { m.rt with item_pos := m.rt.item_pos + 1 } }) := by
    unfold advance_branch
    rw [if_neg (by simp)]
    try dsimp only
    rw [if_neg (show ¬ (m.rt.item_pos + 1 ≥
      (s.groups.get ⟨m.rt.group_index, hgi⟩).item_count) by omega)]
  rw [hbr]
  unfold advance_finish
  try dsimp only
  rw [if_neg (by decide : ¬ ((0 : Int) ≠ 0))]
  have hsel : select_next_item s { m with rt := { m.rt with
      item_pos := m.rt.item_pos + 1 } } =
      (0, { m with rt := { m.rt with
        item_pos := m.rt.item_pos + 1,
        item_index := m.item_order.getD (m.rt.item_pos + 1) 0 } }) := by
    unfold select_next_item
    try dsimp only
    rw [dif_pos hgi]
    try dsimp only
    rw [if_neg (show ¬ ((s.groups.get ⟨m.rt.group_index, hgi⟩).item_count = 0) by omega)]
    rw [if_neg (show ¬ ((s.groups.get ⟨m.rt.group_index, hgi⟩).item_count >
      MAX_ITEMS_PER_GROUP) by omega)]
    try dsimp only
    rw [if_neg (show ¬ (m.rt.item_pos + 1 ≥
      (s.groups.get ⟨m.rt.group_index, hgi⟩).item_count) by omega)]
  rw [hsel]
  try dsimp only
  rw [if_neg (by decide : ¬ ((0 : Int) ≠ 0))]
  have hdraw : draw_prompt s (m.item_order.getD (m.rt.item_pos + 1) 0) = 0 := by
    unfold draw_prompt
    rw [if_neg (show ¬ (m.item_order.getD (m.rt.item_pos + 1) 0 ≥ s.items.length)
      by omega)]
    rw [if_neg (show ¬ (s.buffer.length = 0) by omega)]
    try dsimp only
    rw [if_neg (show ¬ ((s.items.getD (m.item_order.getD (m.rt.item_pos + 1) 0)
        ⟨0, 0⟩).length = 0) by rw [List.getD_eq_getElem _ _ hidx]; omega)]
    rw [if_neg (show ¬ ((s.items.getD (m.item_order.getD (m.rt.item_pos + 1) 0)
          ⟨0, 0⟩).offset +
        (s.items.getD (m.item_order.getD (m.rt.item_pos + 1) 0) ⟨0, 0⟩).length >
        s.buffer.length) by rw [List.getD_eq_getElem _ _ hidx]; omega)]
  rw [if_neg (show ¬ (draw_prompt s (m.item_order.getD (m.rt.item_pos + 1) 0) ≠ 0)
    from by rw [hdraw]; simp)]
  have hlog : log_prompt s
      { m with rt := { m.rt with
        item_pos := m.rt.item_pos + 1,
        item_index := m.item_order.getD (m.rt.item_pos + 1) 0 } }
      m.rt.group_index (m.item_order.getD (m.rt.item_pos + 1) 0) =
      (0, addEv { m with rt := { m.rt with
        item_pos := m.rt.item_pos + 1,
        item_index := m.item_order.getD (m.rt.item_pos + 1) 0 } }
        (Ev.prompt m.rt.group_index (m.item_order.getD (m.rt.item_pos + 1) 0))) := by
    unfold log_prompt
    rw [if_neg (show ¬ (m.rt.group_index ≥ s.groups.length) by omega)]
    rw [if_neg (show ¬ (m.item_order.getD (m.rt.item_pos + 1) 0 ≥ s.items.length)
      by omega)]
    rw [if_neg (show ¬ (m.rt.group_index ≥ MAX_GROUPS) by omega)]
    rw [if_neg (show ¬ (m.item_order.getD (m.rt.item_pos + 1) 0 ≥ MAX_ITEMS_TOTAL)
      by omega)]
    try dsimp only
    rw [if_neg (show ¬ ((s.groups.getD m.rt.group_index
          ⟨0, 0, 0, 0, 0⟩).name_offset +
        (s.groups.getD m.rt.group_index ⟨0, 0, 0, 0, 0⟩).name_length >
        s.buffer.length) by
      rw [List.getD_eq_getElem _ _ hgi]
      have hge : s.groups.get ⟨m.rt.group_index, hgi⟩ = s.groups[m.rt.group_index] := rfl
      rw [hge] at hcN
      omega)]
    rw [if_neg (show ¬ ((s.items.getD (m.item_order.getD (m.rt.item_pos + 1) 0)
          ⟨0, 0⟩).offset +
        (s.items.getD (m.item_order.getD (m.rt.item_pos + 1) 0) ⟨0, 0⟩).length >
        s.buffer.length) by rw [List.getD_eq_getElem _ _ hidx]; omega)]
  rw [hlog]
  try dsimp only
  rw [if_neg (by decide : ¬ ((0 : Int) ≠ 0))]
  rfl

/-- A group-switch advance (`due_to_switch = true`): fresh ascending item
order, one reshuffle, item cursor reset, timer rearm from the clock, "group"
event, then the first item's prompt. -/
theorem advance_true_step (s : Session) (m : Mach)
    (hwf : SessWF s = true)
    (hgi : m.rt.group_index < s.groups.length) :
    ∃ st2 π,
      rng_shuffle_items m.rng ((List.range (s.groups.get ⟨m.rt.group_index, hgi⟩).item_count).map ((s.groups.get ⟨m.rt.group_index, hgi⟩).item_start + ·)) (s.groups.get ⟨m.rt.group_index, hgi⟩).item_count = some (st2, π) ∧
      π.Perm ((List.range (s.groups.get ⟨m.rt.group_index, hgi⟩).item_count).map ((s.groups.get ⟨m.rt.group_index, hgi⟩).item_start + ·)) ∧
      advance_prompt s m true =
        (0, { m with
          rng := st2,
          item_order := π,
          rt := { m.rt with
            item_pos := 0,
            item_index := π.getD 0 0,
            group_end := m.clocks m.cpos + (s.groups.get ⟨m.rt.group_index, hgi⟩).seconds * 1000 },
          cpos := m.cpos + 1,
          trace := m.trace ++ [Ev.logGroup "group" m.rt.group_index] ++
            [Ev.prompt m.rt.group_index (π.getD 0 0)] }) := by
  obtain ⟨hL1, hL2, hL3, hL4, hG, hI⟩ := (sessWF_iff s).mp hwf
  have hgmem : s.groups.get ⟨m.rt.group_index, hgi⟩ ∈ s.groups := List.get_mem _ _ hgi
  obtain ⟨hc0, hcM, hcR, hs0, hsM, hcN⟩ := hG _ hgmem
  obtain ⟨⟨st2, π⟩, hsh⟩ := rng_shuffle_items_isSome m.rng ((List.range (s.groups.get ⟨m.rt.group_index, hgi⟩).item_count).map ((s.groups.get ⟨m.rt.group_index, hgi⟩).item_start + ·)) (s.groups.get ⟨m.rt.group_index, hgi⟩).item_count hcM
  have hbase_len : (((List.range (s.groups.get ⟨m.rt.group_index, hgi⟩).item_count).map ((s.groups.get ⟨m.rt.group_index, hgi⟩).item_start + ·)) : List Nat).length = (s.groups.get ⟨m.rt.group_index, hgi⟩).item_count := by
    rw [List.length_map, List.length_range]
  have hperm : π.Perm ((List.range (s.groups.get ⟨m.rt.group_index, hgi⟩).item_count).map ((s.groups.get ⟨m.rt.group_index, hgi⟩).item_start + ·)) :=
    rng_shuffle_items_perm _ _ _ _ (by omega) hsh
  have hπlen : π.length = (s.groups.get ⟨m.rt.group_index, hgi⟩).item_count := by
    rw [hperm.length_eq, hbase_len]
  have hbase_lt : ∀ x ∈ (((List.range (s.groups.get ⟨m.rt.group_index, hgi⟩).item_count).map ((s.groups.get ⟨m.rt.group_index, hgi⟩).item_start + ·)) : List Nat), x < s.items.length := by
    intro x hx
    obtain ⟨j, hjr, rfl⟩ := List.mem_map.mp hx
    have := List.mem_range.mp hjr
    omega
  have hidx_mem : π.getD 0 0 ∈ π := by
    have h0 : 0 < π.length := by omega
    rw [List.getD_eq_getElem _ _ h0]
    exact List.getElem_mem h0
  have hidx : π.getD 0 0 < s.items.length := hbase_lt _ (hperm.mem_iff.mp hidx_mem)
  obtain ⟨hit1, hit2⟩ := hI _ (List.getElem_mem hidx)
  refine ⟨st2, π, hsh, hperm, ?_⟩
  unfold advance_prompt
  rw [dif_pos hgi]
  try dsimp only
  rw [if_neg (show ¬ ((s.groups.get ⟨m.rt.group_index, hgi⟩).item_count = 0) by omega)]
  rw [if_neg (show ¬ ((s.groups.get ⟨m.rt.group_index, hgi⟩).item_count > MAX_ITEMS_PER_GROUP) by omega)]
  have hio : init_item_order s m m.rt.group_index =
      (0, { m with item_order := ((List.range (s.groups.get ⟨m.rt.group_index, hgi⟩).item_count).map ((s.groups.get ⟨m.rt.group_index, hgi⟩).item_start + ·)) }) := by
    unfold init_item_order
    rw [dif_pos hgi]
    try dsimp only
    rw [if_neg (show ¬ ((s.groups.get ⟨m.rt.group_index, hgi⟩).item_count = 0) by omega)]
    rw [if_neg (show ¬ ((s.groups.get ⟨m.rt.group_index, hgi⟩).item_count > MAX_ITEMS_PER_GROUP) by omega)]
  have hut : update_group_timer s
      { m with
        rng := st2,
        item_order := π,
        rt := { m.rt with item_pos := 0 } } =
      (0, { m with
        rng := st2,
        item_order := π,
        rt := { m.rt with
          item_pos := 0,
          group_end := m.clocks m.cpos + (s.groups.get ⟨m.rt.group_index, hgi⟩).seconds * 1000 },
        cpos := m.cpos + 1 }) := by
    unfold update_group_timer
    try dsimp only
    rw [dif_pos hgi]
    try dsimp only
    rw [if_neg (show ¬ ((s.groups.get ⟨m.rt.group_index, hgi⟩).seconds = 0) by omega)]
    rw [if_neg (show ¬ ((s.groups.get ⟨m.rt.group_index, hgi⟩).seconds > MAX_GROUP_SECONDS) by omega)]
    rfl
  have hbr : advance_branch s m m.rt.group_index (s.groups.get ⟨m.rt.group_index, hgi⟩).item_count true =
      (0, { m with
        rng := st2,
        item_order := π,
        rt := { m.rt with
          item_pos := 0,
          group_end := m.clocks m.cpos + (s.groups.get ⟨m.rt.group_index, hgi⟩).seconds * 1000 },
        cpos := m.cpos + 1,
        trace := m.trace ++ [Ev.logGroup "group" m.rt.group_index] }) := by
    unfold advance_branch
    rw [if_pos rfl]
    try dsimp only
    rw [hio]
    try dsimp only
    rw [if_neg (by decide : ¬ ((0 : Int) ≠ 0))]
    simp only [hsh]
    try dsimp only
    rw [hut]
    try dsimp only
    rw [if_neg (by decide : ¬ ((0 : Int) ≠ 0))]
    unfold log_group
    rw [if_neg (show ¬ (m.rt.group_index ≥ MAX_GROUPS) by omega)]
    rfl
  rw [hbr]
  unfold advance_finish
  try dsimp only
  rw [if_neg (by decide : ¬ ((0 : Int) ≠ 0))]
  have hsel : select_next_item s
      { m with
        rng := st2,
        item_order := π,
        rt := { m.rt with
          item_pos := 0,
          group_end := m.clocks m.cpos + (s.groups.get ⟨m.rt.group_index, hgi⟩).seconds * 1000 },
        cpos := m.cpos + 1,
        trace := m.trace ++ [Ev.logGroup "group" m.rt.group_index] } =
      (0, { m with
        rng := st2,
        item_order := π,
        rt := { m.rt with
          item_pos := 0,
          item_index := π.getD 0 0,
          group_end := m.clocks m.cpos + (s.groups.get ⟨m.rt.group_index, hgi⟩).seconds * 1000 },
        cpos := m.cpos + 1,
        trace := m.trace ++ [Ev.logGroup "group" m.rt.group_index] }) := by
    unfold select_next_item
    try dsimp only
    rw [dif_pos hgi]
    try dsimp only
    rw [if_neg (show ¬ ((s.groups.get ⟨m.rt.group_index, hgi⟩).item_count = 0) by omega)]
    rw [if_neg (show ¬ ((s.groups.get ⟨m.rt.group_index, hgi⟩).item_count > MAX_ITEMS_PER_GROUP) by omega)]
    try dsimp only
    rw [if_neg (show ¬ ((0 : Nat) ≥ (s.groups.get ⟨m.rt.group_index, hgi⟩).item_count) by omega)]
  rw [hsel]
  try dsimp only
  rw [if_neg (by decide : ¬ ((0 : Int) ≠ 0))]
  have hdraw : draw_prompt s (π.getD 0 0) = 0 := by
    unfold draw_prompt
    rw [if_neg (show ¬ (π.getD 0 0 ≥ s.items.length) by omega)]
    rw [if_neg (show ¬ (s.buffer.length = 0) by omega)]
    try dsimp only
    rw [if_neg (show ¬ ((s.items.getD (π.getD 0 0) ⟨0, 0⟩).length = 0) by
      rw [List.getD_eq_getElem _ _ hidx]; omega)]
    rw [if_neg (show ¬ ((s.items.getD (π.getD 0 0) ⟨0, 0⟩).offset +
        (s.items.getD (π.getD 0 0) ⟨0, 0⟩).length > s.buffer.length) by
      rw [List.getD_eq_getElem _ _ hidx]; omega)]
  rw [if_neg (show ¬ (draw_prompt s (π.getD 0 0) ≠ 0) from by rw [hdraw]; simp)]
  have hlog : log_prompt s
      { m with
        rng := st2,
        item_order := π,
        rt := { m.rt with
          item_pos := 0,
          item_index := π.getD 0 0,
          group_end := m.clocks m.cpos + (s.groups.get ⟨m.rt.group_index, hgi⟩).seconds * 1000 },
        cpos := m.cpos + 1,
        trace := m.trace ++ [Ev.logGroup "group" m.rt.group_index] }
      m.rt.group_index (π.getD 0 0) =
      (0, addEv
        { m with
          rng := st2,
          item_order := π,
          rt := { m.rt with
            item_pos := 0,
            item_index := π.getD 0 0,
            group_end := m.clocks m.cpos + (s.groups.get ⟨m.rt.group_index, hgi⟩).seconds * 1000 },
          cpos := m.cpos + 1,
          trace := m.trace ++ [Ev.logGroup "group" m.rt.group_index] }
        (Ev.prompt m.rt.group_index (π.getD 0 0))) := by
    unfold log_prompt
    rw [if_neg (show ¬ (m.rt.group_index ≥ s.groups.length) by omega)]
    rw [if_neg (show ¬ (π.getD 0 0 ≥ s.items.length) by omega)]
    rw [if_neg (show ¬ (m.rt.group_index ≥ MAX_GROUPS) by omega)]
    rw [if_neg (show ¬ (π.getD 0 0 ≥ MAX_ITEMS_TOTAL) by omega)]
    try dsimp only
    rw [if_neg (show ¬ ((s.groups.getD m.rt.group_index
          ⟨0, 0, 0, 0, 0⟩).name_offset +
        (s.groups.getD m.rt.group_index ⟨0, 0, 0, 0, 0⟩).name_length >
        s.buffer.length) by
      rw [List.getD_eq_getElem _ _ hgi]
      have hge : s.groups.get ⟨m.rt.group_index, hgi⟩ = s.groups[m.rt.group_index] := rfl
      rw [hge] at hcN
      omega)]
    rw [if_neg (show ¬ ((s.items.getD (π.getD 0 0) ⟨0, 0⟩).offset +
        (s.items.getD (π.getD 0 0) ⟨0, 0⟩).length > s.buffer.length) by
      rw [List.getD_eq_getElem _ _ hidx]; omega)]
  rw [hlog]
  try dsimp only
  rw [if_neg (by decide : ¬ ((0 : Int) ≠ 0))]
  rfl

/-- `n` in-group advances from cursor `p` (all within one cycle) read
`item_order[p+1 .. p+n]` in order. -/
theorem advN_run (s : Session) (hwf : SessWF s = true) :
    ∀ (n : Nat) (m : Mach) (p : Nat),
    ∀ _hgi : m.rt.group_index < s.groups.length,
    m.rt.item_pos = p →
    m.item_order.length = (s.groups.get ⟨m.rt.group_index, _hgi⟩).item_count →
    (∀ x ∈ m.item_order, x < s.items.length) →
    p + n < m.item_order.length →
    (advN s n m).1 = (m.item_order.drop (p + 1)).take n := by
  intro n
  induction n with
  | zero =>
    intro m p hgi hp hlen hmem hpn
    simp [advN]
  | succ n ih =>
    intro m p hgi hp hlen hmem hpn
    have hb1 : m.rt.item_pos + 1 < m.item_order.length := by omega
    have hstep := advance_false_step s m hwf hgi hlen hmem hb1
    rw [hp] at hstep
    have hb2 : (p + 1) + n < m.item_order.length := by omega
    have ihres := ih
      { m with
        rt := { m.rt with
          item_pos := p + 1,
          item_index := m.item_order.getD (p + 1) 0 },
        trace := m.trace ++ [Ev.prompt m.rt.group_index
          (m.item_order.getD (p + 1) 0)] }
      (p + 1) hgi rfl hlen hmem hb2
    simp only [advN, hstep]
    show m.item_order.getD (p + 1) 0 :: _ = _
    rw [ihres]
    show m.item_order.getD (p + 1) 0 ::
      (m.item_order.drop (p + 1 + 1)).take n = _
    rw [drop_take_succ _ _ _ (show p + 1 < m.item_order.length by omega)]

/-- C9: `group_order` stays a permutation of the `k` group indices across
any selection (including the reshuffle-and-reset on wraparound); from the
start of a cycle, `k` consecutive selections return each group exactly once
before any repeat; a group switch installs an `item_order` that is a
permutation of the active group's item range, and the switch prompt
followed by `item_count - 1` in-group advances shows each of that group's
items exactly once before any repeat. -/
theorem c9_shuffle_cycles (s : Session) (m : Mach) (k : Nat)
    (hwf : SessWF s = true)
    (hk : s.groups.length = k)
    (hperm : m.group_order.Perm (List.range k))
    (hpos : m.rt.order_pos = 0) :
    (∀ m2 : Mach, m2.group_order.Perm (List.range k) →
      (select_next_group s m2).2.group_order.Perm (List.range k)) ∧
    ((selN s k m).1.Perm (List.range k) ∧ (selN s k m).1.Nodup) ∧
    (∀ (m2 : Mach) (hgi : m2.rt.group_index < s.groups.length),
      (advance_prompt s m2 true).2.item_order.Perm
        ((List.range (s.groups.get ⟨m2.rt.group_index, hgi⟩).item_count).map
          ((s.groups.get ⟨m2.rt.group_index, hgi⟩).item_start + ·)) ∧
      ((advance_prompt s m2 true).2.rt.item_index ::
        (advN s ((s.groups.get ⟨m2.rt.group_index, hgi⟩).item_count - 1)
          (advance_prompt s m2 true).2).1).Perm
        ((List.range (s.groups.get ⟨m2.rt.group_index, hgi⟩).item_count).map
          ((s.groups.get ⟨m2.rt.group_index, hgi⟩).item_start + ·))) := by
  refine ⟨?_, ?_, ?_⟩
  · intro m2 hp2
    exact select_next_group_perm s m2 k hk hp2
  · have hlen : m.group_order.length = k := by
      rw [hperm.length_eq, List.length_range]
    obtain ⟨h1, _, _⟩ := selN_run s k hk k m 0 hpos (by omega) hperm
    have h2 : (selN s k m).1 = m.group_order := by
      rw [h1, List.drop_zero, ← hlen, List.take_length]
    rw [h2]
    exact ⟨hperm, hperm.nodup_iff.mpr (List.nodup_range k)⟩
  · intro m2 hgi
    obtain ⟨st2, π, hsh, hpm, heq⟩ := advance_true_step s m2 hwf hgi
    obtain ⟨hL1, hL2, hL3, hL4, hG, hI⟩ := (sessWF_iff s).mp hwf
    obtain ⟨hc0, hcM, hcR, _, _, _⟩ := hG _ (List.get_mem _ _ hgi)
    have hπlen : π.length = (s.groups.get ⟨m2.rt.group_index, hgi⟩).item_count := by
      rw [hpm.length_eq, List.length_map, List.length_range]
    have hπmem : ∀ x ∈ π, x < s.items.length := by
      intro x hx
      obtain ⟨j, hjr, rfl⟩ := List.mem_map.mp (hpm.mem_iff.mp hx)
      have := List.mem_range.mp hjr
      omega
    have hne : π ≠ [] := by
      intro hnil
      rw [hnil] at hπlen
      have h0 : (0 : Nat) = (s.groups.get ⟨m2.rt.group_index, hgi⟩).item_count := hπlen
      omega
    constructor
    · rw [heq]
      exact hpm
    · rw [heq]
      have hbound : 0 + ((s.groups.get ⟨m2.rt.group_index, hgi⟩).item_count - 1) <
          π.length := by omega
      have ihres := advN_run s hwf
        ((s.groups.get ⟨m2.rt.group_index, hgi⟩).item_count - 1)
        { m2 with
          rng := st2,
          item_order := π,
          rt := { m2.rt with
            item_pos := 0,
            item_index := π.getD 0 0,
            group_end := m2.clocks m2.cpos +
              (s.groups.get ⟨m2.rt.group_index, hgi⟩).seconds * 1000 },
          cpos := m2.cpos + 1,
          trace := m2.trace ++ [Ev.logGroup "group" m2.rt.group_index] ++
            [Ev.prompt m2.rt.group_index (π.getD 0 0)] }
        0 hgi rfl hπlen hπmem hbound
      show List.Perm (π.getD 0 0 :: _) _
      rw [ihres]
      show List.Perm (π.getD 0 0 :: (π.drop (0 + 1)).take
        ((s.groups.get ⟨m2.rt.group_index, hgi⟩).item_count - 1)) _
      have htake : (π.drop (0 + 1)).take
          ((s.groups.get ⟨m2.rt.group_index, hgi⟩).item_count - 1) =
          π.drop 1 := by
        refine List.take_of_length_le ?_
        rw [List.length_drop]
        omega
      rw [htake]
      have hcons : π.getD 0 0 :: π.drop 1 = π := by
        cases π with
        | nil => exact absurd rfl hne
        | cons a t => rfl
      rw [hcons]
      exact hpm

/-- C9 witness session: two one-item groups over a 2-byte buffer. -/
def s9 : Session := ⟨[97, 98], [⟨0, 1, 5, 0, 1⟩, ⟨1, 1, 5, 1, 1⟩], [⟨0, 1⟩, ⟨1, 1⟩]⟩

/-- C9 witness machine: fresh cycle with a nontrivial group order. -/
def m9 : Mach :=
  ⟨⟨0, 0, 0, 0, 0, false⟩, [1, 0], [0], 1, [], fun _ => 0, 0,
    fun _ => KeyRes.timeout, 0⟩

/-- C9 witness: the cycle theorem applied to the concrete two-group
session. -/
theorem c9_witness :
    SessWF s9 = true ∧
    (selN s9 2 m9).1.Perm (List.range 2) ∧ (selN s9 2 m9).1.Nodup :=
  ⟨by decide,
    (c9_shuffle_cycles s9 m9 2 (by decide) rfl (by decide) rfl).2.1.1,
    (c9_shuffle_cycles s9 m9 2 (by decide) rfl (by decide) rfl).2.1.2⟩

/-! ## Helper lemmas: C10 -/

theorem update_group_timer_gi (s : Session) (m : Mach) :
    (update_group_timer s m).2.rt.group_index = m.rt.group_index := by
  unfold update_group_timer
  split
  · dsimp only
    split
    · rfl
    · split
      · rfl
      · rfl
  · rfl

theorem select_next_item_gi (s : Session) (m : Mach) :
    (select_next_item s m).2.rt.group_index = m.rt.group_index := by
  unfold select_next_item
  split
  · dsimp only
    split
    · rfl
    · split
      · rfl
      · rfl
  · rfl

theorem advance_branch_gi (s : Session) (m : Mach) (gi count : Nat) (due : Bool) :
    (advance_branch s m gi count due).2.rt.group_index = m.rt.group_index := by
  unfold advance_branch
  cases due with
  | true =>
    rw [if_pos rfl]
    dsimp only
    split
    · show (init_item_order s m gi).2.rt.group_index = _
      rw [init_item_order_rt]
    · split
      · show (init_item_order s m gi).2.rt.group_index = _
        rw [init_item_order_rt]
      · split
        · show (update_group_timer s _).2.rt.group_index = _
          rw [update_group_timer_gi]
          show (init_item_order s m gi).2.rt.group_index = _
          rw [init_item_order_rt]
        · unfold log_group
          split
          · show (update_group_timer s _).2.rt.group_index = _
            rw [update_group_timer_gi]
            show (init_item_order s m gi).2.rt.group_index = _
            rw [init_item_order_rt]
          · show (update_group_timer s _).2.rt.group_index = _
            rw [update_group_timer_gi]
            show (init_item_order s m gi).2.rt.group_index = _
            rw [init_item_order_rt]
  | false =>
    rw [if_neg (by simp)]
    dsimp only
    split
    · split
      · rfl
      · unfold log_shuffle
        split
        · rfl
        · rfl
    · rfl

theorem advance_finish_gi (s : Session) (gi : Nat) (br : Int × Mach) :
    (advance_finish s gi br).2.rt.group_index = br.2.rt.group_index := by
  unfold advance_finish
  split
  · rfl
  · dsimp only
    split
    · show (select_next_item s br.2).2.rt.group_index = _
      rw [select_next_item_gi]
    · split
      · show (select_next_item s br.2).2.rt.group_index = _
        rw [select_next_item_gi]
      · split
        next _ =>
          show (log_prompt s (select_next_item s br.2).2 gi _).2.rt.group_index = _
          rw [log_prompt_rt, select_next_item_gi]
        next _ =>
          show (log_prompt s (select_next_item s br.2).2 gi _).2.rt.group_index = _
          rw [log_prompt_rt, select_next_item_gi]

theorem advance_prompt_gi (s : Session) (m : Mach) (due : Bool) :
    (advance_prompt s m due).2.rt.group_index = m.rt.group_index := by
  unfold advance_prompt
  split
  · dsimp only
    split
    · rfl
    · split
      · rfl
      · rw [advance_finish_gi, advance_branch_gi]
  · rfl

/-- A successful `select_next_group` has selected an in-range group. -/
theorem select_next_group_success (s : Session) (m : Mach)
    (h : (select_next_group s m).1 = 0) :
    (select_next_group s m).2.rt.group_index < s.groups.length := by
  revert h
  unfold select_next_group
  split
  next h0 =>
    intro h
    exact absurd (show (-1 : Int) = 0 from h) (by decide)
  next h0 =>
    dsimp only
    by_cases h1 : m.rt.order_pos ≥ s.groups.length
    · rw [if_pos h1]
      cases hsh : rng_shuffle_groups m.rng m.group_order s.groups.length with
      | none =>
        simp only [hsh]
        split
        next _ =>
          intro h
          exact absurd (show (-1 : Int) = 0 from h) (by decide)
        next hne =>
          have hne2 : (-1 : Int) ≠ 0 := by decide
          exact absurd hne2 hne
      | some sg =>
        simp only [hsh, log_simple]
        split
        next hne => exact absurd rfl hne
        next _ =>
          try dsimp only
          split
          next hge =>
            intro h
            exact absurd (show (-1 : Int) = 0 from h) (by decide)
          next hge =>
            intro _
            exact Nat.lt_of_not_le hge
    · rw [if_neg h1]
      split
      next hne => exact absurd rfl hne
      next _ =>
        try dsimp only
        split
        next hge =>
          intro h
          exact absurd (show (-1 : Int) = 0 from h) (by decide)
        next hge =>
          intro _
          exact Nat.lt_of_not_le hge

/-- C10: (i) a wait iteration that finds `pending_switch` clear and the
clock at/past `group_end` sets the flag and logs a "group expired" event;
(ii) while the flag is set, a successful advance-key `handle_key` performs a
group change — item cursor reset to 0, flag cleared, a "group" change event
and the new group's prompt logged — never an in-group item advance;
(iii) without the flag, `handle_key` keeps the current group and logs no
group-change event; and (iv) through the wait loop, every "group" change
event in the trace is preceded by an "expired" event. -/
theorem c10_expired_precedes_group_change (s : Session)
    (hwf : SessWF s = true) :
    (∀ m : Mach, m.rt.group_index < s.groups.length →
      m.rt.pending_switch = false →
      m.rt.group_end ≤ m.clocks m.cpos →
      update_expiry s m = (0, 0, { m with
        rt := { m.rt with pending_switch := true },
        cpos := m.cpos + 1,
        trace := m.trace ++ [Ev.logGroup "expired" m.rt.group_index] })) ∧
    (∀ (m : Mach) (key : Nat), m.rt.pending_switch = true →
      is_advance_key key = true →
      (handle_key s m key).1 = 0 →
      (handle_key s m key).2.2.rt.item_pos = 0 ∧
      (handle_key s m key).2.2.rt.pending_switch = false ∧
      ∃ Δ, (handle_key s m key).2.2.trace = m.trace ++ Δ ∧
        Ev.logGroup "group" (handle_key s m key).2.2.rt.group_index ∈ Δ ∧
        ∃ ii, Ev.prompt (handle_key s m key).2.2.rt.group_index ii ∈ Δ) ∧
    (∀ (m : Mach) (key : Nat), m.rt.pending_switch = false →
      (handle_key s m key).2.2.rt.group_index = m.rt.group_index ∧
      ∃ Δ, (handle_key s m key).2.2.trace = m.trace ++ Δ ∧
        ∀ t g, Ev.logGroup t g ∉ Δ) ∧
    (∀ (fuel : Nat) (adv : Bool) (m : Mach),
      GoodT m.trace → PendOK m →
      GoodT (run_wait_loop_go s fuel adv m).2.2.trace) := by
  obtain ⟨hL1, hL2, hL3, hL4, hG, hI⟩ := (sessWF_iff s).mp hwf
  refine ⟨?_, ?_, ?_, ?_⟩
  · intro m hgi hpend hclk
    unfold update_expiry now_ms
    rw [if_neg (show ¬ (m.rt.group_index ≥ s.groups.length) by omega)]
    rw [if_neg (show ¬ (m.rt.pending_switch = true) by rw [hpend]; decide)]
    try dsimp only
    rw [if_pos (show m.clocks m.cpos ≥ m.rt.group_end by omega)]
    unfold log_group
    rw [if_neg (show ¬ (m.rt.group_index ≥ MAX_GROUPS) by omega)]
    try dsimp only
    rw [if_neg (by decide : ¬ ((0 : Int) ≠ 0))]
    rfl
  · intro m key hpend hadvk
    unfold handle_key log_key
    try dsimp only
    split
    next hk255 =>
      have hle : ¬ (key > 255) := by
        intro hgt
        unfold is_advance_key at hadvk
        rw [if_pos hgt] at hadvk
        exact Bool.noConfusion hadvk
      exact absurd hk255 hle
    next hk255 =>
      split
      next hne => exact absurd rfl hne
      next _ =>
        split
        next hk3 =>
          intro h0
          exact absurd (show (1 : Int) = 0 from h0) (by decide)
        next hk3 =>
          split
          next hp2 =>
            split
            next hsgf =>
              intro h0
              exact absurd (show (-1 : Int) = 0 from h0) (by decide)
            next hsg0 =>
              have hsg0' : (select_next_group s (addEv m (Ev.key key))).1 = 0 := not_not.mp hsg0
              have hgilt := select_next_group_success s (addEv m (Ev.key key)) hsg0'
              split
              next hapf =>
                intro h0
                exact absurd (show (-1 : Int) = 0 from h0) (by decide)
              next hap0 =>
                intro _
                obtain ⟨st2, π, hsh, hpm, heq⟩ := advance_true_step s
                  { (select_next_group s (addEv m (Ev.key key))).2 with
                    rt := { (select_next_group s (addEv m (Ev.key key))).2.rt with pending_switch := false } } hwf hgilt
                rw [heq]
                refine ⟨rfl, rfl, ?_⟩
                obtain ⟨Δs, hs, _⟩ := select_next_group_trace s (addEv m (Ev.key key))
                refine ⟨Ev.key key :: (Δs ++
                  [Ev.logGroup "group" (select_next_group s (addEv m (Ev.key key))).2.rt.group_index,
                   Ev.prompt (select_next_group s (addEv m (Ev.key key))).2.rt.group_index (π.getD 0 0)]), ?_, ?_, ?_⟩
                · show (select_next_group s (addEv m (Ev.key key))).2.trace ++
                    [Ev.logGroup "group" (select_next_group s (addEv m (Ev.key key))).2.rt.group_index] ++
                    [Ev.prompt (select_next_group s (addEv m (Ev.key key))).2.rt.group_index (π.getD 0 0)] = _
                  rw [hs]
                  show m.trace ++ [Ev.key key] ++ Δs ++ _ ++ _ = _
                  simp [List.append_assoc]
                · simp
                · exact ⟨π.getD 0 0, by simp⟩
          next hp2 =>
            exact absurd (show (0, addEv m (Ev.key key)).2.rt.pending_switch = true
              from hpend) hp2
  · intro m key hpend
    constructor
    · unfold handle_key log_key
      try dsimp only
      split
      next _ =>
        split
        next _ => rfl
        next hne =>
          have hne2 : (-1 : Int) ≠ 0 := by decide
          exact absurd hne2 hne
      next _ =>
        split
        next hne => exact absurd rfl hne
        next _ =>
          split
          next _ => rfl
          next _ =>
            split
            next _ => rfl
            next _ =>
              split
              next hp2 =>
                have hp3 : m.rt.pending_switch = true := hp2
                rw [hpend] at hp3
                exact Bool.noConfusion hp3
              next hp2 =>
                split
                next _ =>
                  show (advance_prompt s (addEv m (Ev.key key)) false).2.rt.group_index = _
                  rw [advance_prompt_gi]
                  rfl
                next _ =>
                  show (advance_prompt s (addEv m (Ev.key key)) false).2.rt.group_index = _
                  rw [advance_prompt_gi]
                  rfl
    · obtain ⟨Δ, h1, _, _, h4, _⟩ := handle_key_char s m key
      refine ⟨Δ, h1, fun t g hm => ?_⟩
      have hx := (h4 t g hm).2
      rw [hpend] at hx
      exact Bool.noConfusion hx
  · intro fuel adv m hg hp
    obtain ⟨Δ, _, _, _, _, _, h6⟩ := run_wait_loop_go_char s hL2 fuel adv m
    exact (h6 hg hp).1

/-- C10 witness: the expiry equation applied to the concrete machine (clock
pinned at the deadline). -/
theorem c10_witness :
    SessWF s9 = true ∧
    update_expiry s9 m9 = (0, 0, { m9 with
      rt := { m9.rt with pending_switch := true },
      cpos := m9.cpos + 1,
      trace := m9.trace ++ [Ev.logGroup "expired" m9.rt.group_index] }) :=
  ⟨by decide, (c10_expired_precedes_group_change s9 (by decide)).1 m9
    (by decide) rfl (by decide)⟩

end Crammer
